import Mathlib

/-!
# Verification of the German-law MCP retrieval core

Shallow embedding of the retrieval core of the German-law MCP server:
the German citation grammar (`src/capabilities.ts`, citation part), the
citation formatter and EU-identifier normalization (germany adapter), the
SQLite-backed statute search with its exact-citation stage and stable
deduplication (`german-law-db`), the in-memory fallback search
(`adapter-kit`), the currency check, the tool dispatcher and the adapter
registry (`shell.ts`).

Strings are modelled as Lean `String`/`List Char`.  JavaScript string
case operations are modelled on the ASCII fragment plus the German
umlauts (the only cased characters that occur in the corpus alphabets
involved); SQLite `lower()` is ASCII-only, exactly as in SQLite.
-/

namespace GermanLawMcp

/-- The JS whitespace class `\s`, restricted to its ASCII members (the only
whitespace characters occurring in the modelled inputs). -/
def isWsChar (c : Char) : Bool :=
  c = ' ' || c = '\t' || c = '\n' || c = '\r' || c = '\x0b' || c = '\x0c'

/-- JS `String.prototype.toLowerCase`, on the ASCII letters plus the German
umlauts. -/
def jsLowerChar (c : Char) : Char :=
  if c = 'Ä' then 'ä' else if c = 'Ö' then 'ö' else if c = 'Ü' then 'ü'
  else c.toLower

def jsLower (s : String) : String := String.mk (s.toList.map jsLowerChar)

/-- JS `String.prototype.toUpperCase`, on the ASCII letters plus the German
umlauts. -/
def jsUpperChar (c : Char) : Char :=
  if c = 'ä' then 'Ä' else if c = 'ö' then 'Ö' else if c = 'ü' then 'Ü'
  else c.toUpper

def jsUpper (s : String) : String := String.mk (s.toList.map jsUpperChar)

/-- SQLite `lower()`: ASCII-only lowercasing. -/
def sqlLower (s : String) : String := String.mk (s.toList.map Char.toLower)

/-- JS `String.prototype.trim` on a character list. -/
def trimWsL (s : List Char) : List Char :=
  ((s.dropWhile (isWsChar ·)).reverse.dropWhile (isWsChar ·)).reverse

def jsTrim (s : String) : String := String.mk (trimWsL s.toList)

/-- `replace(/\s+/g, " ")` helper: the flag records whether the previous
character belonged to a whitespace run whose single `' '` was already
emitted. -/
def collapseAux : Bool → List Char → List Char
  | _, [] => []
  | inRun, c :: cs =>
    if isWsChar c then
      if inRun then collapseAux true cs else ' ' :: collapseAux true cs
    else c :: collapseAux false cs

/-- `replace(/\s+/g, " ")`: collapse every whitespace run to one space. -/
def collapseRunsL (l : List Char) : List Char := collapseAux false l

/-- `value.trim().replace(/\s+/g, " ")` — `normalizeWhitespace` in
`german-citation.ts`, also `collapseWhitespace` in the germany adapter. -/
def normalizeWhitespaceL (s : List Char) : List Char := collapseRunsL (trimWsL s)

def normalizeWhitespace (s : String) : String := String.mk (normalizeWhitespaceL s.toList)

/-!
## The German citation grammar

`PARAGRAPH_PATTERN` and `ARTICLE_PATTERN` are anchored case-insensitive
regexes.  They are embedded as list-of-successes parsers: every regex
fragment maps an input suffix to the ordered list of `(consumed, rest)`
candidates the backtracking engine would try, earlier candidates
preferred; the whole-pattern match is the first candidate whose rest is
empty (the patterns are anchored `^...$`).  Quantifier candidates are
ordered greedily, exactly as in the JS engine.  `\d+` and `\s*` are
implemented as maximal runs: in both patterns every construct that can
follow them matches neither a digit nor a whitespace character, so
shorter candidates can never lead to a match the maximal one misses. -/

/-- Ordered candidates of a regex fragment: consumed characters (in
original case) paired with the remaining input. -/
abbrev Cands := List (List Char × List Char)

def splitWsL (s : List Char) : List Char × List Char :=
  (s.takeWhile (isWsChar ·), s.dropWhile (isWsChar ·))

def skipWsL (s : List Char) : List Char := s.dropWhile (isWsChar ·)

/-- Case-insensitive literal match (the ASCII `i` flag); returns the consumed
original characters and the rest. -/
def matchLitCI : List Char → List Char → Option (List Char × List Char)
  | [], s => some ([], s)
  | _ :: _, [] => none
  | p :: ps, c :: cs =>
    if c.toLower = p.toLower then
      (matchLitCI ps cs).map (fun x => (c :: x.1, x.2))
    else none

def litCands (lit : String) (s : List Char) : Cands :=
  match matchLitCI lit.toList s with
  | some cr => [cr]
  | none => []

/-- `\d+[a-z]?` (with the `i` flag the optional letter is any ASCII letter):
greedy digits, then the optional-letter choice, take-first. -/
def numCands (s : List Char) : Cands :=
  let ds := s.takeWhile (·.isDigit)
  let r := s.dropWhile (·.isDigit)
  if ds.isEmpty then []
  else
    match r with
    | c :: cs => if c.isAlpha then [(ds ++ [c], cs), (ds, r)] else [(ds, r)]
    | [] => [(ds, [])]

/-- `(?:bis|-|,)`, alternatives in pattern order. -/
def sepCands (s : List Char) : Cands :=
  litCands "bis" s ++ litCands "-" s ++ litCands "," s

/-- One section-list iteration `\s*(?:bis|-|,)\s*\d+[a-z]?`. -/
def sepNumCands (s : List Char) : Cands :=
  let (w1, r1) := splitWsL s
  (sepCands r1).flatMap (fun cr =>
    let (w2, r2) := splitWsL cr.2
    (numCands r2).map (fun nr => (w1 ++ cr.1 ++ w2 ++ nr.1, nr.2)))

/-- `(?:\s*(?:bis|-|,)\s*\d+[a-z]?){0,n}`, greedy: at every step the
iterating branch is preferred over stopping. -/
def secIterCands : Nat → List Char → Cands
  | 0, s => [([], s)]
  | Nat.succ n, s =>
    ((sepNumCands s).flatMap (fun ir =>
      (secIterCands n ir.2).map (fun jr => (ir.1 ++ jr.1, jr.2))))
    ++ [([], s)]

/-- The `section` group `\d+[a-z]?(?:\s*(?:bis|-|,)\s*\d+[a-z]?){0,5}`. -/
def sectionCands (s : List Char) : Cands :=
  (numCands s).flatMap (fun nr =>
    (secIterCands 5 nr.2).map (fun ir => (nr.1 ++ ir.1, ir.2)))

/-- Keyword alternation, alternatives in backtracking order (for
`Abs\.?|Absatz` the engine tries `Abs.`, then `Abs`, then `Absatz`). -/
def kwCands (kws : List String) (s : List Char) : Cands :=
  kws.flatMap (fun kw => litCands kw s)

def absKws : List String := ["Abs.", "Abs", "Absatz"]
def satzKws : List String := ["S.", "S", "Satz"]
def nrKws : List String := ["Nr.", "Nr", "Nummer"]
def buchstKws : List String := ["Buchst.", "Buchst", "Buchstabe"]
def artKws : List String := ["Art.", "Art", "Artikel"]

/-- The single letter `[a-z]` (any ASCII letter under the `i` flag). -/
def letterCands (s : List Char) : Cands :=
  match s with
  | c :: cs => if c.isAlpha then [([c], cs)] else []
  | [] => []

/-- An optional subdivision group `(?:\s*KW\s*(VALUE))?`: the matching
candidates (preferred) followed by the skip candidate.  Only the VALUE
sub-group is captured. -/
def tailGroupCands (kws : List String) (valCands : List Char → Cands)
    (s : List Char) : List (Option (List Char) × List Char) :=
  ((kwCands kws (skipWsL s)).flatMap (fun kr =>
    (valCands (skipWsL kr.2)).map (fun vr => (some vr.1, vr.2))))
  ++ [(none, s)]

/-- The `code` group `[A-Za-z][A-Za-z0-9_-]{1,19}`, greedy. -/
def isCodeChar (c : Char) : Bool := c.isAlpha || c.isDigit || c = '_' || c = '-'

def codeCands (s : List Char) : Cands :=
  match s with
  | [] => []
  | c :: cs =>
    if c.isAlpha then
      let m := min 19 ((cs.takeWhile (isCodeChar ·)).length)
      (List.range m).map (fun i => (c :: cs.take (m - i), cs.drop (m - i)))
    else []

/-- The `marker` group `§{1,2}`, greedy. -/
def markerCands (s : List Char) : Cands :=
  match s with
  | '§' :: '§' :: r => [(['§', '§'], r), (['§'], '§' :: r)]
  | '§' :: r => [(['§'], r)]
  | _ => []

/-- Raw captures of `PARAGRAPH_PATTERN`. -/
structure ParaRaw where
  marker : List Char
  sec : List Char
  par : Option (List Char)
  sent : Option (List Char)
  num : Option (List Char)
  letr : Option (List Char)
  code : List Char
deriving DecidableEq, Repr

/-- All full-pattern candidates of `PARAGRAPH_PATTERN` in backtracking
order (the anchored `$` is applied by the caller). -/
def paraCands (s : List Char) : List (ParaRaw × List Char) :=
  (markerCands s).flatMap fun mk =>
  (sectionCands (skipWsL mk.2)).flatMap fun sc =>
  (tailGroupCands absKws numCands sc.2).flatMap fun pa =>
  (tailGroupCands satzKws numCands pa.2).flatMap fun se =>
  (tailGroupCands nrKws numCands se.2).flatMap fun nu =>
  (tailGroupCands buchstKws letterCands nu.2).flatMap fun le =>
  (codeCands (skipWsL le.2)).map fun co =>
  ({ marker := mk.1, sec := sc.1, par := pa.1, sent := se.1,
     num := nu.1, letr := le.1, code := co.1 }, co.2)

def matchParagraph (s : List Char) : Option ParaRaw :=
  (((paraCands s).filter (fun pr => pr.2.isEmpty)).head?).map (·.1)

/-- Raw captures of `ARTICLE_PATTERN`. -/
structure ArtRaw where
  art : List Char
  par : Option (List Char)
  sent : Option (List Char)
  num : Option (List Char)
  letr : Option (List Char)
  code : List Char
deriving DecidableEq, Repr

def artCands (s : List Char) : List (ArtRaw × List Char) :=
  (kwCands artKws s).flatMap fun kr =>
  (numCands (skipWsL kr.2)).flatMap fun ar =>
  (tailGroupCands absKws numCands ar.2).flatMap fun pa =>
  (tailGroupCands satzKws numCands pa.2).flatMap fun se =>
  (tailGroupCands nrKws numCands se.2).flatMap fun nu =>
  (tailGroupCands buchstKws letterCands nu.2).flatMap fun le =>
  (codeCands (skipWsL le.2)).map fun co =>
  ({ art := ar.1, par := pa.1, sent := se.1,
     num := nu.1, letr := le.1, code := co.1 }, co.2)

def matchArticle (s : List Char) : Option ArtRaw :=
  (((artCands s).filter (fun pr => pr.2.isEmpty)).head?).map (·.1)

/-! ### Normalization of the captures -/

def isWordChar (c : Char) : Bool := c.isAlpha || c.isDigit || c = '_'

/-- The test `/(?:\bbis\b|,|-)/i` used by `resolveSectionMarker`: a comma,
a hyphen, or a word-bounded occurrence of `bis`. -/
def hasWordBisAux : Option Char → List Char → Bool
  | prev, c1 :: c2 :: c3 :: rest =>
    (c1.toLower = 'b' && c2.toLower = 'i' && c3.toLower = 's'
      && (match prev with | some p => !(isWordChar p) | none => true)
      && (match rest with | c4 :: _ => !(isWordChar c4) | [] => true))
    || hasWordBisAux (some c1) (c2 :: c3 :: rest)
  | _, _ => false

def sepTest (sec : List Char) : Bool :=
  sec.contains ',' || sec.contains '-' || hasWordBisAux none sec

def resolveSectionMarker (marker : String) (sec : String) : String :=
  if marker = "§§" || sepTest sec.toList then "§§" else "§"

structure ParagraphCitationParts where
  marker : String
  sec : String
  par : Option String
  sent : Option String
  num : Option String
  letr : Option String
  code : String

def buildParagraphCitation (p : ParagraphCitationParts) : String :=
  String.intercalate " "
    ([p.marker ++ " " ++ p.sec]
      ++ (match p.par with | some v => ["Abs. " ++ v] | none => [])
      ++ (match p.sent with | some v => ["S. " ++ v] | none => [])
      ++ (match p.num with | some v => ["Nr. " ++ v] | none => [])
      ++ (match p.letr with | some v => ["Buchst. " ++ jsLower v] | none => [])
      ++ [p.code])

structure ArticleCitationParts where
  art : String
  par : Option String
  sent : Option String
  num : Option String
  letr : Option String
  code : String

def buildArticleCitation (p : ArticleCitationParts) : String :=
  String.intercalate " "
    (["Art. " ++ p.art]
      ++ (match p.par with | some v => ["Abs. " ++ v] | none => [])
      ++ (match p.sent with | some v => ["S. " ++ v] | none => [])
      ++ (match p.num with | some v => ["Nr. " ++ v] | none => [])
      ++ (match p.letr with | some v => ["Buchst. " ++ jsLower v] | none => [])
      ++ [p.code])

/-- The `parsed` record of a parse result (absent keys are `none`; a key
spread as `...(x ? { x } : {})` is absent exactly when the capture is
absent or the empty string, mirroring JS truthiness). -/
structure ParsedFields where
  typ : String
  marker : Option String
  sec : Option String
  article : Option String
  par : Option String
  sent : Option String
  num : Option String
  letr : Option String
  code : String
deriving DecidableEq, Repr

structure GermanCitationParsed where
  typ : String
  normalized : String
  parsed : ParsedFields
  lookupCitations : List String
deriving DecidableEq, Repr

/-- Convert an optional capture to the optional record entry, mirroring JS
truthiness (an empty capture is falsy and therefore omitted). -/
def optStr (o : Option (List Char)) : Option String :=
  match o with
  | some [] => none
  | some l => some (String.mk l)
  | none => none

def normalizeCode (s : String) : String := jsUpper s

def mkParagraphParsed (g : ParaRaw) : Option GermanCitationParsed :=
  if g.sec.isEmpty || g.marker.isEmpty || g.code.isEmpty then none
  else
    let normalizedCode := normalizeCode (String.mk g.code)
    let normalizedSection := normalizeWhitespace (String.mk g.sec)
    let normalizedMarker := resolveSectionMarker (String.mk g.marker) normalizedSection
    some
      { typ := "paragraph"
        normalized := buildParagraphCitation
          { marker := normalizedMarker, sec := normalizedSection
            par := optStr g.par, sent := optStr g.sent, num := optStr g.num
            letr := optStr g.letr, code := normalizedCode }
        parsed :=
          { typ := "paragraph", marker := some normalizedMarker
            sec := some normalizedSection, article := none
            par := optStr g.par, sent := optStr g.sent, num := optStr g.num
            letr := (optStr g.letr).map jsLower, code := normalizedCode }
        lookupCitations :=
          [normalizedMarker ++ " " ++ normalizedSection ++ " " ++ normalizedCode] }

def mkArticleParsed (g : ArtRaw) : Option GermanCitationParsed :=
  if g.art.isEmpty || g.code.isEmpty then none
  else
    let normalizedCode := normalizeCode (String.mk g.code)
    let normalizedArticle := normalizeWhitespace (String.mk g.art)
    some
      { typ := "article"
        normalized := buildArticleCitation
          { art := normalizedArticle
            par := optStr g.par, sent := optStr g.sent, num := optStr g.num
            letr := optStr g.letr, code := normalizedCode }
        parsed :=
          { typ := "article", marker := none, sec := none
            article := some normalizedArticle
            par := optStr g.par, sent := optStr g.sent, num := optStr g.num
            letr := (optStr g.letr).map jsLower, code := normalizedCode }
        lookupCitations := ["Art " ++ normalizedArticle ++ " " ++ normalizedCode] }

/-- `parseGermanCitation` (src/citation/german-citation.ts): whitespace-
normalize the input, try the paragraph pattern, then the article pattern.
When the paragraph pattern matches, a missing required capture yields
`null` without falling through to the article pattern. -/
def parseGermanCitation (input : String) : Option GermanCitationParsed :=
  let ni := normalizeWhitespaceL input.toList
  match matchParagraph ni with
  | some g => mkParagraphParsed g
  | none =>
    match matchArticle ni with
    | some g => mkArticleParsed g
    | none => none

/-!
## Citation formatting (germany adapter)
-/

/-- `collapseWhitespace` in the germany adapter: identical to
`normalizeWhitespace`. -/
def collapseWhitespace (s : String) : String := normalizeWhitespace s

/-- `formatGermanCitationByStyle`: `default`/`pinpoint` return the
normalized form; otherwise (the `short` style) only the primary number
and the code are kept, under a literal `§ `/`Art. ` head. -/
def formatGermanCitationByStyle (parsed : GermanCitationParsed) (style : String) : String :=
  if style = "default" || style = "pinpoint" then parsed.normalized
  else if parsed.typ = "paragraph" then
    collapseWhitespace ("§ " ++ (parsed.parsed.sec.getD "") ++ " " ++ parsed.parsed.code)
  else
    collapseWhitespace ("Art. " ++ (parsed.parsed.article.getD "") ++ " " ++ parsed.parsed.code)

structure CitationFormatResult where
  original : String
  formatted : String
  style : String
  valid : Bool
  reason : Option String
deriving DecidableEq, Repr

/-- `germanyAdapter.formatCitation`. -/
def germanyFormatCitation (citation : String) (style : Option String) : CitationFormatResult :=
  let st := style.getD "default"
  match parseGermanCitation citation with
  | none =>
    { original := citation, formatted := jsTrim citation, style := st, valid := false
      reason := some "Citation does not match supported German formats." }
  | some parsed =>
    { original := citation, formatted := formatGermanCitationByStyle parsed st
      style := st, valid := true, reason := none }

/-!
## Shared small helpers of the adapter and the store
-/

/-- A JS spread `...(x ? { x } : {})`: an empty string is falsy and the key
is omitted. -/
def truthyOpt (o : Option String) : Option String :=
  match o with
  | some s => if s = "" then none else some s
  | none => none

/-- `dedupeStrings`: trim, drop empties, keep first occurrences
(JS `Set` preserves insertion order). -/
def dedupeStrings (values : List String) : List String :=
  ((values.map jsTrim).filter (fun v => v ≠ "")).eraseDups

/-- Lexicographic (code-point) comparison of character lists: the JS `<`
on strings and, on the ASCII identifiers involved, also SQLite's text
ordering. -/
def charListLt : List Char → List Char → Bool
  | [], [] => false
  | [], _ :: _ => true
  | _ :: _, [] => false
  | a :: xs, b :: ys => a < b || (a = b && charListLt xs ys)

def strLt (a b : String) : Bool := charListLt a.toList b.toList

def strLe (a b : String) : Bool := !(charListLt b.toList a.toList)

def startsWithL : List Char → List Char → Bool
  | [], _ => true
  | _ :: _, [] => false
  | a :: xs, b :: ys => a = b && startsWithL xs ys

def hasInfixL (needle : List Char) : List Char → Bool
  | [] => needle.isEmpty
  | c :: cs => startsWithL needle (c :: cs) || hasInfixL needle cs

/-- JS `String.prototype.includes`. -/
def jsIncludes (hay needle : String) : Bool :=
  hasInfixL needle.toList hay.toList

/-- Insertion into a list sorted by `le`. -/
def insertLe (le : α → α → Bool) (a : α) : List α → List α
  | [] => [a]
  | b :: bs => if le a b then a :: b :: bs else b :: insertLe le a bs

/-- Insertion sort by `le` (a stable comparison sort; used to model SQL
`ORDER BY` / JS `Array.prototype.sort`). -/
def sortLe (le : α → α → Bool) : List α → List α
  | [] => []
  | a :: xs => insertLe le a (sortLe le xs)

/-!
## The German SQLite store (`german-law-db.ts`), statute search

The `law_documents` table is modelled as a list of rows.  The full-text
index, the query compiler (`buildFtsQueryVariants`, whose source is not
under the handed sources) and the SQL `LIKE` stage are modelled as
opaque inputs of the search — the verified claims hold for every value
of these inputs.  The `metadata_json` column and the parsed metadata bag
are not inspected by any verified claim and are omitted from the row and
document records. -/

structure StatuteRow where
  id : String
  country : String
  kind : String
  title : String
  citation : Option String
  source_url : Option String
  effective_date : Option String
  text_snippet : Option String
deriving DecidableEq, Repr

structure LawDocument where
  id : String
  country : String
  kind : String
  title : String
  citation : Option String
  sourceUrl : Option String
  effectiveDate : Option String
  textSnippet : Option String
deriving DecidableEq, Repr

def mapKind (value : String) : String :=
  let kind := jsLower value
  if kind = "statute" || kind = "regulation" || kind = "case" || kind = "preparatory_work"
  then kind else "other"

def mapStatuteRowToLawDocument (row : StatuteRow) : LawDocument :=
  { id := row.id, country := row.country, kind := mapKind row.kind, title := row.title
    citation := truthyOpt row.citation, sourceUrl := truthyOpt row.source_url
    effectiveDate := truthyOpt row.effective_date, textSnippet := truthyOpt row.text_snippet }

structure SearchResponse where
  documents : List LawDocument
  total : Nat
deriving DecidableEq, Repr

/-- `clampLimit` of `german-law-db.ts` (the argument is modelled as an
integer, on which `Math.trunc` is the identity; the `NaN` branch of the
source has no integer counterpart). -/
def clampLimitStore (limit : Int) : Nat :=
  if limit < 1 then 1 else if 100 < limit then 100 else limit.toNat

/-- The `ORDER BY CASE WHEN lower(citation) = ?preferred THEN 0 ELSE 1 END, id`
comparison of the exact-citation query (`lower(NULL)` is `NULL`, which never
equals the preferred candidate). -/
def exactKey (preferred : String) (r : StatuteRow) : Nat :=
  match r.citation with
  | some c => if sqlLower c = preferred then 0 else 1
  | none => 1

def exactRowLe (preferred : String) (a b : StatuteRow) : Bool :=
  exactKey preferred a < exactKey preferred b
  || (exactKey preferred a = exactKey preferred b && strLe a.id b.id)

/-- `findExactCitationRows`: parse the query, lowercase the deduplicated
lookup citations, select the rows whose stored citation (SQL-lowercased)
is among them, order preferred-candidate first then `id` ascending, and
take `limit` rows. -/
def findExactCitationRows (table : List StatuteRow) (query : String) (limit : Nat) :
    List StatuteRow :=
  match parseGermanCitation query with
  | none => []
  | some parsed =>
    if parsed.lookupCitations.isEmpty then []
    else
      let citations := (dedupeStrings parsed.lookupCitations).map jsLower
      let preferred := citations.head?.getD ""
      let sel := table.filter (fun r =>
        match r.citation with
        | some c => citations.contains (sqlLower c)
        | none => false)
      (sortLe (exactRowLe preferred) sel).take limit

/-- `pushUniqueRows`: append unseen rows until the limit is reached. -/
def pushUniqueRows (idOf : α → String) (target : List α) (seen : List String)
    (rows : List α) (limit : Nat) : List α :=
  match rows with
  | [] => target
  | r :: rs =>
    if seen.contains (idOf r) then pushUniqueRows idOf target seen rs limit
    else
      let t := target ++ [r]
      if limit ≤ t.length then t
      else pushUniqueRows idOf t (seen ++ [idOf r]) rs limit

/-- The opaque collaborators of `searchGermanLawDocuments`: the presence
of the tables, the compiled query shape, the rows produced by the two
full-text queries (`none` models a thrown/failed query) and by the
substring (`LIKE`) query. -/
structure GermanDbEnv where
  hasLawDocuments : Bool
  table : List StatuteRow
  hasLawFts : Bool
  ftsPrimaryNonempty : Bool
  ftsHasFallback : Bool
  ftsPrimaryRows : Option (List StatuteRow)
  ftsFallbackRows : Option (List StatuteRow)
  likeRows : List StatuteRow

def mkSearchResponse (rows : List StatuteRow) : SearchResponse :=
  { documents := rows.map mapStatuteRowToLawDocument, total := rows.length }

/-- `searchGermanLawDocuments` (three-tier statute search), `none` when the
database or the `law_documents` table is absent.  The source's early
`return` statements become nested conditionals; the final substring
(`LIKE`) stage, reached by falling through either the whole FTS block or
its absence, is therefore spelled at both fall-through leaves. -/
def searchGermanLawDocuments (env : GermanDbEnv) (query : String) (limit : Int) :
    Option SearchResponse :=
  if env.hasLawDocuments = false then none
  else
    let clamped := clampLimitStore limit
    let exactRows := findExactCitationRows env.table query clamped
    let m1 := pushUniqueRows (·.id) [] [] exactRows clamped
    if clamped ≤ m1.length then some (mkSearchResponse m1)
    else if env.ftsPrimaryNonempty = false then some (mkSearchResponse m1)
    else if env.hasLawFts then
      let m2 := match env.ftsPrimaryRows with
        | some rows => pushUniqueRows (·.id) m1 (m1.map (·.id)) rows clamped
        | none => m1
      if clamped ≤ m2.length then some (mkSearchResponse m2)
      else
        let m3 := if env.ftsHasFallback then
            match env.ftsFallbackRows with
            | some rows =>
              if 0 < rows.length then
                pushUniqueRows (·.id) m2 (m2.map (·.id)) rows clamped
              else m2
            | none => m2
          else m2
        if clamped ≤ m3.length then some (mkSearchResponse m3)
        else some (mkSearchResponse (pushUniqueRows (·.id) m3 (m3.map (·.id)) env.likeRows clamped))
    else some (mkSearchResponse (pushUniqueRows (·.id) m1 (m1.map (·.id)) env.likeRows clamped))

/-- Concrete store environment used to exercise the statute search on a
closed input: one `law_documents` row, no FTS index, no LIKE rows. -/
def wEnvC2 : GermanDbEnv :=
  { hasLawDocuments := true
    table := [{ id := "bdsg-1", country := "de", kind := "statute"
                title := "BDSG", citation := some "§ 1 BDSG"
                source_url := none, effective_date := none, text_snippet := none }]
    hasLawFts := false, ftsPrimaryNonempty := false, ftsHasFallback := false
    ftsPrimaryRows := none, ftsFallbackRows := none, likeRows := [] }

/-- The parse result of `"§§ 823 BGB"` (a doubled marker with a plain
single-section spec), used as concrete instantiation. -/
def wParse4 : GermanCitationParsed :=
  { typ := "paragraph"
    normalized := "§§ 823 BGB"
    parsed := { typ := "paragraph", marker := some "§§", sec := some "823"
                article := none, par := none, sent := none, num := none
                letr := none, code := "BGB" }
    lookupCitations := ["§§ 823 BGB"] }

/-- The parse result of `"§ 1 BDSG"`, used as concrete instantiation. -/
def wParse1 : GermanCitationParsed :=
  { typ := "paragraph"
    normalized := "§ 1 BDSG"
    parsed := { typ := "paragraph", marker := some "§", sec := some "1"
                article := none, par := none, sent := none, num := none
                letr := none, code := "BDSG" }
    lookupCitations := ["§ 1 BDSG"] }

/-- The parse result of `"§ 1, 2 BGB"` (a list-form section spec written
with a single marker), used as concrete instantiation. -/
def wParse5 : GermanCitationParsed :=
  { typ := "paragraph"
    normalized := "§§ 1, 2 BGB"
    parsed := { typ := "paragraph", marker := some "§§", sec := some "1, 2"
                article := none, par := none, sent := none, num := none
                letr := none, code := "BGB" }
    lookupCitations := ["§§ 1, 2 BGB"] }

/-!
## In-memory fallback search (`adapter-kit.ts`) and the germany adapter
-/

structure SearchRequest where
  query : String
  limit : Option Int
deriving DecidableEq, Repr

/-- `clampLimit` of `adapter-kit.ts` (no truncation, no NaN branch). -/
def clampLimitKit (limit : Int) : Int :=
  if limit < 1 then 1 else if 100 < limit then 100 else limit

/-- `searchDocumentsInMemory`: one whole-query lowercase substring match
against title, citation, text snippet or id. -/
def searchDocumentsInMemory (documents : List LawDocument) (request : SearchRequest) :
    SearchResponse :=
  let limit := clampLimitKit (request.limit.getD 20)
  let query := jsLower (jsTrim request.query)
  if query.length = 0 then { documents := [], total := 0 }
  else
    let hits := (documents.filter (fun doc =>
      jsIncludes (jsLower doc.title) query
      || (match doc.citation with | some c => jsIncludes (jsLower c) query | none => false)
      || (match doc.textSnippet with | some c => jsIncludes (jsLower c) query | none => false)
      || jsIncludes (jsLower doc.id) query)).take limit.toNat
    { documents := hits, total := hits.length }

/-- The in-memory seed corpus `GERMAN_LEGISLATION`
(`sample-data/de-legislation.ts`; the citation strings carry the
mojibake section sign of the source file verbatim). -/
def GERMAN_LEGISLATION : List LawDocument :=
  [ { id := "bgb-823", country := "de", kind := "statute"
      title := "Buergerliches Gesetzbuch (BGB) - Schadensersatzpflicht"
      citation := some "ยง 823 Abs. 1 BGB"
      sourceUrl := some "https://www.gesetze-im-internet.de/bgb/__823.html"
      effectiveDate := some "1900-01-01"
      textSnippet := some "Wer vorsatzlich oder fahrlaessig das Leben, den Koerper, die Gesundheit, die Freiheit, das Eigentum oder ein sonstiges Recht eines anderen widerrechtlich verletzt, ist dem anderen zum Ersatz des daraus entstehenden Schadens verpflichtet." }
  , { id := "gg-art-1", country := "de", kind := "statute"
      title := "Grundgesetz (GG) - Menschenwuerde"
      citation := some "Art. 1 Abs. 1 GG"
      sourceUrl := some "https://www.gesetze-im-internet.de/gg/art_1.html"
      effectiveDate := some "1949-05-23"
      textSnippet := some "Die Wuerde des Menschen ist unantastbar. Sie zu achten und zu schuetzen ist Verpflichtung aller staatlichen Gewalt." }
  , { id := "stgb-242", country := "de", kind := "statute"
      title := "Strafgesetzbuch (StGB) - Diebstahl"
      citation := some "ยง 242 Abs. 1 StGB"
      sourceUrl := some "https://www.gesetze-im-internet.de/stgb/__242.html"
      effectiveDate := some "1872-01-01"
      textSnippet := some "Wer eine fremde bewegliche Sache einem anderen in der Absicht wegnimmt, die Sache sich oder einem Dritten rechtswidrig zuzueignen, wird mit Freiheitsstrafe bis zu fuenf Jahren oder mit Geldstrafe bestraft." } ]

/-- `germanyAdapter.searchDocuments`: prefer the store, fall back to the
in-memory corpus when the store search returns the unavailable sentinel. -/
def germanySearchDocuments (env : GermanDbEnv) (request : SearchRequest) : SearchResponse :=
  match searchGermanLawDocuments env request.query (request.limit.getD 20) with
  | some dbSearch => dbSearch
  | none => searchDocumentsInMemory GERMAN_LEGISLATION request

/-!
## Currency check (`germanyAdapter.checkCurrency`)

The candidate-document collection (`collectCurrencyDocuments`) reads the
store; it is abstracted as the pair of its outputs (the deduplicated
document list and the `dbUnavailable` flag), and the decision logic of
`checkCurrency` is embedded verbatim on top of it. -/

def isIsoDateL (l : List Char) : Bool :=
  match l with
  | [a, b, c, d, e, f, g, h, i, j] =>
    a.isDigit && b.isDigit && c.isDigit && d.isDigit && e = '-'
      && f.isDigit && g.isDigit && h = '-' && i.isDigit && j.isDigit
  | _ => false

/-- `normalizeIsoDate`: trim and require the exact `YYYY-MM-DD` shape. -/
def normalizeIsoDate (value : Option String) : Option String :=
  match value with
  | none => none
  | some v =>
    if v = "" then none
    else
      let trimmed := jsTrim v
      if trimmed = "" then none
      else if isIsoDateL trimmed.toList then some trimmed else none

/-- `newestDate`: normalize, drop invalid dates, sort ascending, take the
last (for `YYYY-MM-DD` strings `localeCompare` agrees with the character
order used here). -/
def newestDate (values : List (Option String)) : Option String :=
  let valid := values.filterMap normalizeIsoDate
  (sortLe strLe valid).getLast?

structure CurrencyCheckRequest where
  citation : Option String
  statuteId : Option String
  asOfDate : Option String
deriving DecidableEq, Repr

/-- Currency result; `evidenceMatches`/`evidenceSample` model the
`evidence` record of the source (absent evidence is `none`). -/
structure CurrencyCheckResult where
  status : String
  statuteId : Option String
  citation : Option String
  asOfDate : Option String
  sourceDate : Option String
  reason : Option String
  evidenceMatches : Option Nat
  evidenceSample : Option String
deriving DecidableEq, Repr

/-- `germanyAdapter.checkCurrency` after document collection:
`docs`/`dbUnavailable` are the outputs of `collectCurrencyDocuments`. -/
def checkCurrencyCore (docs : List LawDocument) (dbUnavailable : Bool)
    (req : CurrencyCheckRequest) : CurrencyCheckResult :=
  let statuteId := truthyOpt (req.statuteId.map jsTrim)
  let requestedCitation := truthyOpt (req.citation.map jsTrim)
  if dbUnavailable && docs.length = 0 then
    { status := "unknown", statuteId := statuteId, citation := requestedCitation
      asOfDate := truthyOpt req.asOfDate, sourceDate := none
      reason := some "Current corpus database is unavailable; currency cannot be verified deterministically."
      evidenceMatches := none, evidenceSample := none }
  else if docs.length = 0 then
    { status := "not_found", statuteId := statuteId, citation := requestedCitation
      asOfDate := truthyOpt req.asOfDate, sourceDate := none
      reason := some "No matching statute/provision found in the ingested corpus."
      evidenceMatches := none, evidenceSample := none }
  else
    let sourceDate := newestDate (docs.map (·.effectiveDate))
    let asOfDate := normalizeIsoDate req.asOfDate
    let isEarlier := match asOfDate, sourceDate with
      | some a, some sd => strLt a sd
      | _, _ => false
    if isEarlier then
      { status := "unknown", statuteId := statuteId, citation := requestedCitation
        asOfDate := asOfDate, sourceDate := sourceDate
        reason := some "The corpus stores consolidated current text; historical in-force status before the known effective date is not guaranteed."
        evidenceMatches := some docs.length, evidenceSample := none }
    else
      { status := "likely_in_force", statuteId := statuteId, citation := requestedCitation
        asOfDate := asOfDate, sourceDate := sourceDate, reason := none
        evidenceMatches := some docs.length
        evidenceSample := (docs.head?).map (·.id) }

/-!
## EU identifier normalization and matching (germany adapter)
-/

def digitsToNat (l : List Char) : Nat :=
  l.foldl (fun acc c => acc * 10 + (c.toNat - '0'.toNat)) 0

/-- `Number.parseInt(s, 10)` on the digit-led tokens occurring here:
the leading decimal-digit run, `none` when there is none (NaN). -/
def jsParseIntPrefix (s : String) : Option Nat :=
  let ds := s.toList.takeWhile (·.isDigit)
  if ds.isEmpty then none else some (digitsToNat ds)

/-- `parseCelex`: `^3\d{4}[A-Z]\d{4}$` on the trimmed upper-cased input;
the numeric part loses its leading zeros through `parseInt`. -/
def parseCelex (input : String) : Option (String × String) :=
  let normalized := jsUpper (jsTrim input)
  match normalized.toList with
  | ['3', y1, y2, y3, y4, t, n1, n2, n3, n4] =>
    if y1.isDigit && y2.isDigit && y3.isDigit && y4.isDigit
        && ('A' ≤ t && t ≤ 'Z')
        && n1.isDigit && n2.isDigit && n3.isDigit && n4.isDigit then
      let year := String.mk [y1, y2, y3, y4]
      let num := digitsToNat [n1, n2, n3, n4]
      let euType :=
        if t = 'R' then "regulation"
        else if t = 'L' then "directive"
        else if t = 'D' then "decision"
        else "act"
      some ("EU " ++ year ++ "/" ++ toString num, euType)
    else none
  | _ => none

/-- JS `split("/")`. -/
def splitOnSlashL : List Char → List (List Char)
  | [] => [[]]
  | c :: cs =>
    let r := splitOnSlashL cs
    if c = '/' then [] :: r
    else
      match r with
      | h :: t => (c :: h) :: t
      | [] => [[c]]

/-- `normalizeEuIdParts`: strip leading zeros of the number part
(`parseInt`, keeping the raw token when it is not numeric). -/
def normalizeEuIdParts (jurisdiction numberExpression : String) : String :=
  let parts := (splitOnSlashL numberExpression.toList).map String.mk
  let year := jsTrim (parts.getD 0 "")
  let numberToken := jsTrim (parts.getD 1 "")
  let number := match jsParseIntPrefix numberToken with
    | some n => toString n
    | none => numberToken
  jsTrim (jsUpper (jsTrim jurisdiction) ++ " " ++ year ++ "/" ++ number)

/-- `replace(/^CELEX[:\s]*/i, "")`. -/
def stripCelexPfx (s : String) : String :=
  match matchLitCI "CELEX".toList s.toList with
  | some cr => String.mk (cr.2.dropWhile (fun c => c = ':' || isWsChar c))
  | none => s

/-- Case-sensitive literal match returning the rest. -/
def matchLitCS : List Char → List Char → Option (List Char)
  | [], s => some s
  | _ :: _, [] => none
  | p :: ps, c :: cs => if c = p then matchLitCS ps cs else none

/-- The alternation `(EU|EG|EWG)` at the start of the string.  The three
literals are pairwise prefix-free, so at most one alternative matches. -/
def euJurSplit (l : List Char) : Option (String × List Char) :=
  match matchLitCS "EU".toList l with
  | some r => some ("EU", r)
  | none =>
    match matchLitCS "EG".toList l with
    | some r => some ("EG", r)
    | none =>
      match matchLitCS "EWG".toList l with
      | some r => some ("EWG", r)
      | none => none

/-- `(\d{2,4})\/(\d{2,4})$`: a bounded digit group followed by a
non-digit is necessarily the maximal digit run, so the greedy quantifier
is equivalent to run-length checks. -/
def euNumsTail (l : List Char) : Option (String × String) :=
  let ds := l.takeWhile (·.isDigit)
  let r := l.dropWhile (·.isDigit)
  if 2 ≤ ds.length && ds.length ≤ 4 then
    match r with
    | '/' :: r2 =>
      let ds2 := r2.takeWhile (·.isDigit)
      let r3 := r2.dropWhile (·.isDigit)
      if 2 ≤ ds2.length && ds2.length ≤ 4 && r3.isEmpty then
        some (String.mk ds, String.mk ds2)
      else none
    | _ => none
  else none

/-- `^(EU|EG|EWG)\s*(?:NR\.?\s*)?(\d{2,4})\/(\d{2,4})$` (case-sensitive,
on the already upper-cased input).  When the optional `NR` group matches
but the digits do not follow, the group is dropped — the retry without it
then fails at the digit class, exactly as here. -/
def euPfxForm (s : String) : Option (String × String × String) :=
  match euJurSplit s.toList with
  | none => none
  | some jr =>
    let r2 := jr.2.dropWhile (isWsChar ·)
    let withNr : Option (String × String) :=
      match matchLitCS "NR".toList r2 with
      | some r3 =>
        let r4 := match r3 with | '.' :: t => t | _ => r3
        euNumsTail (r4.dropWhile (isWsChar ·))
      | none => none
    match withNr with
    | some yn => some (jr.1, yn.1, yn.2)
    | none =>
      match euNumsTail r2 with
      | some yn => some (jr.1, yn.1, yn.2)
      | none => none

/-- `^(\d{2,4})\/(\d{2,4})\/(EU|EG|EWG)$`. -/
def euSfxForm (s : String) : Option (String × String × String) :=
  let l := s.toList
  let ds := l.takeWhile (·.isDigit)
  let r := l.dropWhile (·.isDigit)
  if 2 ≤ ds.length && ds.length ≤ 4 then
    match r with
    | '/' :: r2 =>
      let ds2 := r2.takeWhile (·.isDigit)
      let r3 := r2.dropWhile (·.isDigit)
      if 2 ≤ ds2.length && ds2.length ≤ 4 then
        match r3 with
        | '/' :: r4 =>
          match euJurSplit r4 with
          | some jr => if jr.2.isEmpty then some (jr.1, String.mk ds, String.mk ds2) else none
          | none => none
        | _ => none
      else none
    | _ => none
  else none

/-- `normalizeEuIdentifier`. -/
def normalizeEuIdentifier (input : String) : String :=
  let trimmed := jsUpper (collapseWhitespace input)
  if trimmed = "" then ""
  else
    let celexInput := stripCelexPfx trimmed
    match parseCelex celexInput with
    | some c => c.1
    | none =>
      match euPfxForm trimmed with
      | some m => normalizeEuIdParts m.1 (m.2.1 ++ "/" ++ m.2.2)
      | none =>
        match euSfxForm trimmed with
        | some m => normalizeEuIdParts m.1 (m.2.1 ++ "/" ++ m.2.2)
        | none => trimmed

/-- `replace(/^(EU|EG|EWG)\s+/, "")`. -/
def stripJurPfx (s : String) : String :=
  match euJurSplit s.toList with
  | some jr =>
    let w := jr.2.takeWhile (isWsChar ·)
    if w.isEmpty then s else String.mk (jr.2.dropWhile (isWsChar ·))
  | none => s

/-- `euIdentifiersMatch` (the second argument is already normalized at
every call site). -/
def euIdentifiersMatch (candidate targetNormalized : String) : Bool :=
  let candidateNormalized := normalizeEuIdentifier candidate
  if candidateNormalized = targetNormalized then true
  else stripJurPfx candidateNormalized = stripJurPfx targetNormalized

/-- The matching relation as applied by `getNationalImplementations` and
`validateEuCompliance`: the requested identifier is normalized first. -/
def euIdMatches (a b : String) : Bool :=
  euIdentifiersMatch a (normalizeEuIdentifier b)

/-!
## Shell dispatcher and adapter registry (`shell.ts`)
-/

/-- The keys of the `handlers` record built in the `LawMcpShell`
constructor. -/
def recognizedToolNames : List String :=
  ["law_list_countries", "law_describe_country", "law_search_documents",
   "law_search_case_law", "law_get_preparatory_works", "law_format_citation",
   "law_check_currency", "law_build_legal_stance", "law_get_eu_basis",
   "law_search_eu_implementations", "law_get_national_implementations",
   "law_get_provision_eu_basis", "law_validate_eu_compliance",
   "law_get_document", "law_parse_citation", "law_validate_citation",
   "law_run_ingestion"]

structure ShellError where
  code : String
  message : String
deriving DecidableEq, Repr

/-- A thrown JS condition: a `ShellError` or any other error value. -/
inductive Thrown where
  | shellError (e : ShellError)
  | jsError (message : String)
deriving DecidableEq, Repr

/-- Modelled from the spec: `toShellError` (src/shell/errors.ts, which is
not among the provided sources) passes a `ShellError` through unchanged
and wraps any other thrown condition as the catch-all `internal_error`
preserving the underlying message (spec sections 4.10 and 7). -/
def toShellError : Thrown → ShellError
  | .shellError e => e
  | .jsError m => { code := "internal_error", message := m }

structure ToolResult where
  tool : String
  ok : Bool
  errorCode : Option String
  errorMessage : Option String
deriving DecidableEq, Repr

/-- The string-keyed properties of `Object.prototype`.  The `handlers`
record is a plain object literal, so the lookup
`this.handlers[call.name]` resolves names outside the seventeen own keys
through the prototype chain, and every name in this list yields a defined
(not necessarily callable) value instead of `undefined`. -/
def objectPrototypeNames : List String :=
  ["constructor", "hasOwnProperty", "isPrototypeOf", "propertyIsEnumerable",
   "toLocaleString", "toString", "valueOf", "__defineGetter__",
   "__defineSetter__", "__lookupGetter__", "__lookupSetter__", "__proto__"]

/-- The inherited members whose call `handler(args)` returns normally.
The dispatcher always passes an object (`call.arguments ?? {}`) and, the
handler being a detached function in a strict-mode module, `this` is
`undefined`: `toString` returns the string `"[object Undefined]"` and
`constructor` (the `Object` function) returns its object argument.  Every
other inherited member throws a `TypeError`: `valueOf`, `hasOwnProperty`,
`isPrototypeOf`, `propertyIsEnumerable`, `toLocaleString` and the four
`__defineGetter__`-family methods evaluate `ToObject(undefined)` (or
`GetV(undefined, "toString")`), and the `__proto__` accessor returns the
non-callable `Object.prototype`, so the call itself throws. -/
def protoReturningNames : List String := ["toString", "constructor"]

/-- `LawMcpShell.handleToolCall`: look up `this.handlers[call.name]` and
invoke it inside a `try`/`catch`.  A recognized name runs its bound
handler (abstracted by `invoke`).  A name inherited from
`Object.prototype` resolves to that member: `toString` and `constructor`
return normally (`ok:true`), the others throw a `TypeError`.  Any other
name yields `undefined`, so the call `handler(args)` throws a
`TypeError`.  Every thrown condition is mapped through `toShellError` by
the `catch`. -/
def handleToolCall (invoke : String → Except Thrown Unit) (name : String) : ToolResult :=
  let outcome : Except Thrown Unit :=
    if recognizedToolNames.contains name then invoke name
    else if objectPrototypeNames.contains name then
      if protoReturningNames.contains name then .ok ()
      else .error (.jsError "TypeError: cannot convert undefined to object")
    else .error (.jsError "TypeError: handler is not a function")
  match outcome with
  | .ok _ => { tool := name, ok := true, errorCode := none, errorMessage := none }
  | .error e =>
    let n := toShellError e
    { tool := name, ok := false, errorCode := some n.code
      errorMessage := some n.message }

/-- An adapter as the registry sees it: its country code plus an identity
tag modelling JS object identity (two registrations of the same instance
share the tag). -/
structure CountryAdapterRef where
  code : String
  instanceTag : Nat
deriving DecidableEq, Repr

/-- The registry `Map`, keyed by lower-cased code, in insertion order. -/
abbrev AdapterRegistry := List (String × CountryAdapterRef)

/-- `AdapterRegistry.register`. -/
def registerAdapter (reg : AdapterRegistry) (a : CountryAdapterRef) :
    Except ShellError AdapterRegistry :=
  let code := jsLower a.code
  if (reg.lookup code).isSome then
    .error { code := "duplicate_country"
             message := "Country adapter is already registered: " ++ code }
  else .ok (reg ++ [(code, a)])

/-- `AdapterRegistry.get`. -/
def registryGet (reg : AdapterRegistry) (countryCode : String) :
    Except ShellError CountryAdapterRef :=
  match reg.lookup (jsLower countryCode) with
  | some a => .ok a
  | none =>
    .error { code := "unknown_country"
             message := "No adapter found for country: " ++ countryCode }

/-!
# Theorems
-/

/-- C3 counterexample: the dispatcher performs no name-membership check
before invoking the handler.  An unrecognized plain name yields `ok:false`
with the catch-all code `internal_error`, never `unknown_tool`; and a name
inherited from `Object.prototype` such as `"toString"` even returns
`ok:true`, because the object-literal lookup resolves it to a callable
prototype member. -/
theorem unknownToolGivesInternalError :
    (handleToolCall (fun _ => Except.ok ()) "law_frobnicate").ok = false
    ∧ (handleToolCall (fun _ => Except.ok ()) "law_frobnicate").errorCode
        = some "internal_error"
    ∧ (handleToolCall (fun _ => Except.ok ()) "law_frobnicate").errorCode
        ≠ some "unknown_tool"
    ∧ recognizedToolNames.contains "toString" = false
    ∧ (handleToolCall (fun _ => Except.ok ()) "toString").ok = true := by
  refine ⟨rfl, rfl, ?_, by decide, rfl⟩
  decide

/-- C3 (amended): `handleToolCall` never produces the dedicated
`unknown_tool` code.  For a name outside both the recognized tool-name set
and the `Object.prototype` property names, the absent-handler `TypeError`
is caught and yields `ok:false` with `internal_error`.  A name inherited
from `Object.prototype` leaks through the object-literal lookup:
`toString` and `constructor` return `ok:true`, the remaining inherited
members throw a `TypeError` and yield `ok:false` with `internal_error`. -/
theorem protoReturning_sub (name : String)
    (h : protoReturningNames.contains name = true) :
    objectPrototypeNames.contains name = true := by
  have hmem : name ∈ protoReturningNames := by
    simpa [List.contains, List.elem_eq_mem] using h
  rcases List.mem_cons.mp hmem with h1 | h1
  · subst h1
    decide
  · rcases List.mem_cons.mp h1 with h2 | h2
    · subst h2
      decide
    · cases h2

theorem handleToolCall_unknown_name (invoke : String → Except Thrown Unit)
    (name : String) (h : recognizedToolNames.contains name = false) :
    (handleToolCall invoke name).errorCode ≠ some "unknown_tool"
    ∧ (objectPrototypeNames.contains name = false →
        (handleToolCall invoke name).ok = false
        ∧ (handleToolCall invoke name).errorCode = some "internal_error")
    ∧ (protoReturningNames.contains name = true →
        (handleToolCall invoke name).ok = true
        ∧ (handleToolCall invoke name).errorCode = none)
    ∧ (objectPrototypeNames.contains name = true →
        protoReturningNames.contains name = false →
        (handleToolCall invoke name).ok = false
        ∧ (handleToolCall invoke name).errorCode = some "internal_error") := by
  unfold handleToolCall
  rw [h]
  dsimp only
  cases hop : objectPrototypeNames.contains name with
  | false =>
    exact ⟨by intro hx; simp [toShellError] at hx, fun _ => ⟨rfl, rfl⟩,
      fun hc => absurd (protoReturning_sub name hc)
        (by rw [hop]; exact Bool.false_ne_true),
      fun hc => absurd hc (by decide)⟩
  | true =>
    cases hpr : protoReturningNames.contains name with
    | true =>
      exact ⟨by intro hx; simp [toShellError] at hx, fun hc => absurd hc (by decide),
        fun _ => ⟨rfl, rfl⟩, fun _ hc => absurd hc (by decide)⟩
    | false =>
      exact ⟨by intro hx; simp [toShellError] at hx, fun hc => absurd hc (by decide),
        fun hc => absurd hc (by decide), fun _ _ => ⟨rfl, rfl⟩⟩

/-- Witness for `handleToolCall_unknown_name` at the plain unrecognized
name `"bogus_tool"` and at the inherited prototype name `"toString"`. -/
theorem handleToolCall_unknown_name_witness :
    (recognizedToolNames.contains "bogus_tool" = false
      ∧ (handleToolCall (fun _ => Except.ok ()) "bogus_tool").ok = false
      ∧ (handleToolCall (fun _ => Except.ok ()) "bogus_tool").errorCode
          = some "internal_error")
    ∧ (recognizedToolNames.contains "toString" = false
      ∧ (handleToolCall (fun _ => Except.ok ()) "toString").ok = true) :=
  ⟨⟨by decide,
    (handleToolCall_unknown_name (fun _ => Except.ok ()) "bogus_tool"
      (by decide)).2.1 (by decide)⟩,
   ⟨by decide,
    ((handleToolCall_unknown_name (fun _ => Except.ok ()) "toString"
      (by decide)).2.2.1 (by decide)).1⟩⟩

/-- C9 counterexample: registering the same adapter instance twice does
not succeed idempotently — the second registration fails with
`duplicate_country`. -/
theorem registerSameInstanceRejected :
    registerAdapter [] ⟨"de", 0⟩ = Except.ok [("de", ⟨"de", 0⟩)]
    ∧ (registerAdapter [("de", ⟨"de", 0⟩)] ⟨"de", 0⟩).isOk = false
    ∧ registerAdapter [("de", ⟨"de", 0⟩)] ⟨"de", 0⟩
        = Except.error { code := "duplicate_country"
                         message := "Country adapter is already registered: de" } := by
  refine ⟨rfl, rfl, rfl⟩

/-- C9 (amended): `register` rejects every adapter whose lower-cased code
is already registered — including the very same instance — with
`duplicate_country`; an unregistered code is appended under its
lower-cased key; and `get` is case-insensitive (two codes with the same
lower-casing resolve to the same adapter or both fail). -/
theorem registry_register_get_spec (reg : AdapterRegistry) (a : CountryAdapterRef)
    (c₁ c₂ : String) :
    ((reg.lookup (jsLower a.code)).isSome = true →
      registerAdapter reg a
        = Except.error { code := "duplicate_country"
                         message := "Country adapter is already registered: "
                           ++ jsLower a.code })
    ∧ ((reg.lookup (jsLower a.code)).isSome = false →
      registerAdapter reg a = Except.ok (reg ++ [(jsLower a.code, a)]))
    ∧ (jsLower c₁ = jsLower c₂ →
      (registryGet reg c₁).toOption = (registryGet reg c₂).toOption) := by
  refine ⟨?_, ?_, ?_⟩
  · intro h
    simp [registerAdapter, h]
  · intro h
    simp [registerAdapter, h]
  · intro h
    unfold registryGet
    rw [h]
    cases reg.lookup (jsLower c₂) <;> rfl

theorem registry_register_get_spec_witness :
    (registerAdapter [("de", ⟨"de", 0⟩)] ⟨"DE", 1⟩
      = Except.error { code := "duplicate_country"
                       message := "Country adapter is already registered: de" })
    ∧ (registryGet [("de", ⟨"de", 0⟩)] "DE").toOption
        = (registryGet [("de", ⟨"de", 0⟩)] "de").toOption := by
  refine ⟨?_, ?_⟩
  · exact (registry_register_get_spec [("de", ⟨"de", 0⟩)] ⟨"DE", 1⟩ "x" "x").1 (by decide)
  · exact (registry_register_get_spec [("de", ⟨"de", 0⟩)] ⟨"de", 0⟩ "DE" "de").2.2 (by decide)

/-- C8: the EU-identifier matching used by `get_national_implementations`
and `validate_eu_compliance` holds exactly when the fully normalized
forms are equal or when they are equal after stripping the jurisdiction
prefix; in particular `"EU 2016/679"` matches `"2016/679"` and matches
`"32016R0679"`, whose CELEX form normalizes to `"EU 2016/679"` with the
leading zeros of the number stripped. -/
theorem euIdMatches_spec (a b : String) :
    (euIdMatches a b = true ↔
      (normalizeEuIdentifier a = normalizeEuIdentifier b
        ∨ stripJurPfx (normalizeEuIdentifier a) = stripJurPfx (normalizeEuIdentifier b)))
    ∧ euIdMatches "EU 2016/679" "2016/679" = true
    ∧ euIdMatches "EU 2016/679" "32016R0679" = true
    ∧ normalizeEuIdentifier "32016R0679" = "EU 2016/679" := by
  refine ⟨?_, by decide, by decide, by decide⟩
  unfold euIdMatches euIdentifiersMatch
  by_cases h : normalizeEuIdentifier a = normalizeEuIdentifier b
  · simp [h]
  · simp [h]

/-- C7: when the currency check has gathered at least one matching
document, the returned status is `unknown` exactly when a well-formed
`asOfDate` is strictly earlier than the newest effective date among the
matches, and `likely_in_force` otherwise. -/
theorem checkCurrency_status_spec (docs : List LawDocument) (dbUnavailable : Bool)
    (req : CurrencyCheckRequest) (hne : docs ≠ []) :
    ((checkCurrencyCore docs dbUnavailable req).status = "unknown" ↔
      (∃ a sd, normalizeIsoDate req.asOfDate = some a
        ∧ newestDate (docs.map (·.effectiveDate)) = some sd ∧ strLt a sd = true))
    ∧ ((checkCurrencyCore docs dbUnavailable req).status = "likely_in_force" ↔
      ¬ (∃ a sd, normalizeIsoDate req.asOfDate = some a
        ∧ newestDate (docs.map (·.effectiveDate)) = some sd ∧ strLt a sd = true)) := by
  have hlen : docs.length ≠ 0 := by
    intro h
    exact hne (List.length_eq_zero.mp h)
  unfold checkCurrencyCore
  simp only [hlen, Bool.and_eq_true, decide_eq_true_eq, and_false, if_false]
  cases ha : normalizeIsoDate req.asOfDate with
  | none =>
    simp [ha]
  | some a =>
    cases hsd : newestDate (docs.map (·.effectiveDate)) with
    | none => simp [ha, hsd]
    | some sd =>
      cases hlt : strLt a sd with
      | true => simp [ha, hsd, hlt]
      | false => simp [ha, hsd, hlt]

theorem checkCurrency_status_spec_witness :
    (checkCurrencyCore
      [{ id := "bdsg:1", country := "de", kind := "statute", title := "BDSG"
         citation := some "§ 1 BDSG", sourceUrl := none
         effectiveDate := some "2018-05-25", textSnippet := none }]
      false
      { citation := none, statuteId := some "bdsg", asOfDate := some "2000-01-01" }).status
      = "unknown"
    ∧ (checkCurrencyCore
      [{ id := "bdsg:1", country := "de", kind := "statute", title := "BDSG"
         citation := some "§ 1 BDSG", sourceUrl := none
         effectiveDate := some "2018-05-25", textSnippet := none }]
      false
      { citation := none, statuteId := some "bdsg", asOfDate := none }).status
      = "likely_in_force" := by
  constructor
  · exact ((checkCurrency_status_spec _ false _ (by simp)).1).mpr
      ⟨"2000-01-01", "2018-05-25", by decide, by decide, by decide⟩
  · exact ((checkCurrency_status_spec _ false _ (by simp)).2).mpr
      (by
        rintro ⟨a, sd, ha, _, _⟩
        simp [normalizeIsoDate] at ha)

theorem jsLower_length (s : String) : (jsLower s).length = s.length := by
  show (s.toList.map jsLowerChar).length = s.length
  rw [List.length_map]
  rfl

/-- C10: when the store-level search reports the unavailable sentinel
(the database or its `law_documents` table is absent), `search_documents`
for `de` falls back to the in-memory sample corpus; the fallback matches
the whole trimmed, lower-cased query as a single substring against each
document's title, citation, text snippet or id (no three-tier staging),
and a query that is empty after trimming returns zero documents. -/
theorem germanyInMemoryFallback (env : GermanDbEnv) (req : SearchRequest)
    (h : env.hasLawDocuments = false) :
    germanySearchDocuments env req = searchDocumentsInMemory GERMAN_LEGISLATION req
    ∧ (∀ docs : List LawDocument,
        (jsTrim req.query = "" →
          searchDocumentsInMemory docs req = { documents := [], total := 0 })
        ∧ (jsTrim req.query ≠ "" →
          (searchDocumentsInMemory docs req).documents
            = (docs.filter (fun doc =>
                jsIncludes (jsLower doc.title) (jsLower (jsTrim req.query))
                || (match doc.citation with
                    | some c => jsIncludes (jsLower c) (jsLower (jsTrim req.query))
                    | none => false)
                || (match doc.textSnippet with
                    | some c => jsIncludes (jsLower c) (jsLower (jsTrim req.query))
                    | none => false)
                || jsIncludes (jsLower doc.id) (jsLower (jsTrim req.query)))).take
              (clampLimitKit (req.limit.getD 20)).toNat
          ∧ (searchDocumentsInMemory docs req).total
              = (searchDocumentsInMemory docs req).documents.length)) := by
  constructor
  · unfold germanySearchDocuments searchGermanLawDocuments
    rw [h]
    rfl
  · intro docs
    constructor
    · intro hq
      unfold searchDocumentsInMemory
      rw [hq]
      rfl
    · intro hq
      have hlen0 : (jsTrim req.query).length ≠ 0 := by
        intro hz
        apply hq
        apply String.ext
        have hdata : (jsTrim req.query).data = [] := List.length_eq_zero.mp hz
        rw [hdata]
      have hlen : ¬((jsLower (jsTrim req.query)).length = 0) := by
        rw [jsLower_length]
        exact hlen0
      simp only [searchDocumentsInMemory, if_neg hlen]
      refine ⟨?_, ?_⟩ <;> first | rfl | trivial

theorem germanyInMemoryFallback_witness :
    (germanySearchDocuments
      { hasLawDocuments := false, table := [], hasLawFts := false
        ftsPrimaryNonempty := false, ftsHasFallback := false
        ftsPrimaryRows := none, ftsFallbackRows := none, likeRows := [] }
      { query := "Diebstahl", limit := some 2 }).documents.map (·.id) = ["stgb-242"]
    ∧ (searchDocumentsInMemory GERMAN_LEGISLATION { query := "   ", limit := none }).total = 0 := by
  have h := germanyInMemoryFallback
    { hasLawDocuments := false, table := [], hasLawFts := false
      ftsPrimaryNonempty := false, ftsHasFallback := false
      ftsPrimaryRows := none, ftsFallbackRows := none, likeRows := [] }
    { query := "Diebstahl", limit := some 2 } rfl
  constructor
  · rw [h.1]
    decide
  · have h2 := germanyInMemoryFallback
      { hasLawDocuments := false, table := [], hasLawFts := false
        ftsPrimaryNonempty := false, ftsHasFallback := false
        ftsPrimaryRows := none, ftsFallbackRows := none, likeRows := [] }
      { query := "   ", limit := none } rfl
    rw [(h2.2 GERMAN_LEGISLATION).1 (by decide)]

theorem pushUniqueRows_cons {α : Type} (f : α → String) (target : List α)
    (seen : List String) (r : α) (rs : List α) (limit : Nat) :
    pushUniqueRows f target seen (r :: rs) limit =
      if seen.contains (f r) then pushUniqueRows f target seen rs limit
      else if limit ≤ (target ++ [r]).length then target ++ [r]
      else pushUniqueRows f (target ++ [r]) (seen ++ [f r]) rs limit := rfl

theorem pushUniqueRows_spec {α : Type} (f : α → String) (limit : Nat) :
    ∀ (rows target : List α) (seen : List String),
      seen = target.map f → (target.map f).Nodup → target.length < limit →
      ((pushUniqueRows f target seen rows limit).map f).Nodup
      ∧ (pushUniqueRows f target seen rows limit).length ≤ limit := by
  intro rows
  induction rows with
  | nil =>
    intro target seen hseen hnd hlt
    exact ⟨hnd, Nat.le_of_lt hlt⟩
  | cons r rs ih =>
    intro target seen hseen hnd hlt
    rw [pushUniqueRows_cons]
    by_cases hc : seen.contains (f r)
    · rw [if_pos hc]
      exact ih target seen hseen hnd hlt
    · rw [if_neg hc]
      have hmem : f r ∉ target.map f := by
        intro hx
        apply hc
        rw [hseen]
        simpa [List.contains, List.elem_eq_mem] using hx
      have hnd2 : ((target ++ [r]).map f).Nodup := by
        rw [List.map_append]
        refine List.Nodup.append hnd (by simp) ?_
        intro x hx hy
        simp only [List.map_cons, List.map_nil, List.mem_singleton] at hy
        rw [hy] at hx
        exact hmem hx
      by_cases hl : limit ≤ (target ++ [r]).length
      · rw [if_pos hl]
        have hlen : (target ++ [r]).length ≤ limit := by
          simp only [List.length_append, List.length_singleton]
          omega
        exact ⟨hnd2, hlen⟩
      · rw [if_neg hl]
        have hlt2 : (target ++ [r]).length < limit := Nat.lt_of_not_le hl
        have hseen2 : seen ++ [f r] = (target ++ [r]).map f := by
          rw [List.map_append, hseen]
          rfl
        exact ih (target ++ [r]) (seen ++ [f r]) hseen2 hnd2 hlt2

theorem clampLimitStore_pos (l : Int) : 1 ≤ clampLimitStore l := by
  unfold clampLimitStore
  split
  · omega
  · split
    · omega
    · omega

theorem mapStatuteRow_id (r : StatuteRow) : (mapStatuteRowToLawDocument r).id = r.id := rfl

theorem mkSearchResponse_spec (rows : List StatuteRow) :
    (mkSearchResponse rows).documents.map (·.id) = rows.map (·.id)
    ∧ (mkSearchResponse rows).documents.length = rows.length
    ∧ (mkSearchResponse rows).total = rows.length := by
  refine ⟨?_, ?_, rfl⟩
  · show (rows.map mapStatuteRowToLawDocument).map (·.id) = rows.map (·.id)
    rw [List.map_map]
    congr 1
  · show (rows.map mapStatuteRowToLawDocument).length = rows.length
    rw [List.length_map]

/-- C2: every response of `search_documents` served from the store has
pairwise-distinct document ids, at most `clamp(limit, 1, 100)` documents
(with the adapter default of `20` when the limit is absent), and a
`total` equal to the number of returned documents. -/
theorem searchDocuments_store_invariants (env : GermanDbEnv) (query : String)
    (limitArg : Option Int) (resp : SearchResponse)
    (h : searchGermanLawDocuments env query (limitArg.getD 20) = some resp) :
    (resp.documents.map (·.id)).Nodup
    ∧ resp.documents.length ≤ clampLimitStore (limitArg.getD 20)
    ∧ resp.total = resp.documents.length := by
  have base : ∀ rows : List StatuteRow,
      (rows.map (fun r => r.id)).Nodup → rows.length ≤ clampLimitStore (limitArg.getD 20) →
      some (mkSearchResponse rows) = some resp →
      (resp.documents.map (·.id)).Nodup
        ∧ resp.documents.length ≤ clampLimitStore (limitArg.getD 20)
        ∧ resp.total = resp.documents.length := by
    intro rows hnd hle hr
    obtain ⟨h1, h2, h3⟩ := mkSearchResponse_spec rows
    rw [← Option.some.inj hr]
    refine ⟨by rw [h1]; exact hnd, by rw [h2]; exact hle, by rw [h3, h2]⟩
  unfold searchGermanLawDocuments at h
  by_cases htab : env.hasLawDocuments = false
  · rw [if_pos htab] at h
    exact absurd h (by simp)
  rw [if_neg htab] at h
  dsimp only at h
  have hm1 := pushUniqueRows_spec (fun r : StatuteRow => r.id) (clampLimitStore (limitArg.getD 20))
      (findExactCitationRows env.table query (clampLimitStore (limitArg.getD 20))) [] [] rfl
      (by simp) (by simpa using clampLimitStore_pos (limitArg.getD 20))
  split at h
  next heq1 => exact base _ hm1.1 hm1.2 h
  next heq1 =>
  split at h
  next => exact base _ hm1.1 hm1.2 h
  next =>
  have hm1lt := Nat.lt_of_not_le heq1
  by_cases hfts : env.hasLawFts = true
  swap
  · rw [if_neg hfts] at h
    try dsimp only at h
    have hm4 := pushUniqueRows_spec (fun r : StatuteRow => r.id)
      (clampLimitStore (limitArg.getD 20)) env.likeRows _ _ rfl hm1.1 hm1lt
    exact base _ hm4.1 hm4.2 h
  rw [if_pos hfts] at h
  cases hp : env.ftsPrimaryRows with
  | some rows =>
    rw [hp] at h
    try dsimp only at h
    have hm2 := pushUniqueRows_spec (fun r : StatuteRow => r.id)
      (clampLimitStore (limitArg.getD 20)) rows _ _ rfl hm1.1 hm1lt
    split at h
    next => exact base _ hm2.1 hm2.2 h
    next heq2 =>
    have hm2lt := Nat.lt_of_not_le heq2
    by_cases hfb : env.ftsHasFallback = true
    · rw [if_pos hfb] at h
      cases hq : env.ftsFallbackRows with
      | some rows2 =>
        rw [hq] at h
        try dsimp only at h
        by_cases hrl : 0 < rows2.length
        · rw [if_pos hrl] at h
          have hm3 := pushUniqueRows_spec (fun r : StatuteRow => r.id)
            (clampLimitStore (limitArg.getD 20)) rows2 _ _ rfl hm2.1 hm2lt
          split at h
          next => exact base _ hm3.1 hm3.2 h
          next heq3 =>
            have hm4 := pushUniqueRows_spec (fun r : StatuteRow => r.id)
              (clampLimitStore (limitArg.getD 20)) env.likeRows _ _ rfl hm3.1 (Nat.lt_of_not_le heq3)
            exact base _ hm4.1 hm4.2 h
        · rw [if_neg hrl] at h
          split at h
          next => exact base _ hm2.1 hm2.2 h
          next heq3 =>
            have hm4 := pushUniqueRows_spec (fun r : StatuteRow => r.id)
              (clampLimitStore (limitArg.getD 20)) env.likeRows _ _ rfl hm2.1 (Nat.lt_of_not_le heq3)
            exact base _ hm4.1 hm4.2 h
      | none =>
        rw [hq] at h
        try dsimp only at h
        split at h
        next => exact base _ hm2.1 hm2.2 h
        next heq3 =>
          have hm4 := pushUniqueRows_spec (fun r : StatuteRow => r.id)
            (clampLimitStore (limitArg.getD 20)) env.likeRows _ _ rfl hm2.1 (Nat.lt_of_not_le heq3)
          exact base _ hm4.1 hm4.2 h
    · rw [if_neg hfb] at h
      split at h
      next => exact base _ hm2.1 hm2.2 h
      next heq3 =>
        have hm4 := pushUniqueRows_spec (fun r : StatuteRow => r.id)
          (clampLimitStore (limitArg.getD 20)) env.likeRows _ _ rfl hm2.1 (Nat.lt_of_not_le heq3)
        exact base _ hm4.1 hm4.2 h
  | none =>
    rw [hp] at h
    try dsimp only at h
    split at h
    next => exact base _ hm1.1 hm1.2 h
    next heq2 =>
    have hm2lt := Nat.lt_of_not_le heq2
    by_cases hfb : env.ftsHasFallback = true
    · rw [if_pos hfb] at h
      cases hq : env.ftsFallbackRows with
      | some rows2 =>
        rw [hq] at h
        try dsimp only at h
        by_cases hrl : 0 < rows2.length
        · rw [if_pos hrl] at h
          have hm3 := pushUniqueRows_spec (fun r : StatuteRow => r.id)
            (clampLimitStore (limitArg.getD 20)) rows2 _ _ rfl hm1.1 hm1lt
          split at h
          next => exact base _ hm3.1 hm3.2 h
          next heq3 =>
            have hm4 := pushUniqueRows_spec (fun r : StatuteRow => r.id)
              (clampLimitStore (limitArg.getD 20)) env.likeRows _ _ rfl hm3.1 (Nat.lt_of_not_le heq3)
            exact base _ hm4.1 hm4.2 h
        · rw [if_neg hrl] at h
          split at h
          next => exact base _ hm1.1 hm1.2 h
          next heq3 =>
            have hm4 := pushUniqueRows_spec (fun r : StatuteRow => r.id)
              (clampLimitStore (limitArg.getD 20)) env.likeRows _ _ rfl hm1.1 (Nat.lt_of_not_le heq3)
            exact base _ hm4.1 hm4.2 h
      | none =>
        rw [hq] at h
        try dsimp only at h
        split at h
        next => exact base _ hm1.1 hm1.2 h
        next heq3 =>
          have hm4 := pushUniqueRows_spec (fun r : StatuteRow => r.id)
            (clampLimitStore (limitArg.getD 20)) env.likeRows _ _ rfl hm1.1 (Nat.lt_of_not_le heq3)
          exact base _ hm4.1 hm4.2 h
    · rw [if_neg hfb] at h
      split at h
      next => exact base _ hm1.1 hm1.2 h
      next heq3 =>
        have hm4 := pushUniqueRows_spec (fun r : StatuteRow => r.id)
          (clampLimitStore (limitArg.getD 20)) env.likeRows _ _ rfl hm1.1 (Nat.lt_of_not_le heq3)
        exact base _ hm4.1 hm4.2 h

/-- Witness for `searchDocuments_store_invariants`: the concrete store
`wEnvC2` with the parsing query `"§ 1 BDSG"` and requested limit `1`
returns exactly its one matching row, and the invariants hold for it. -/
theorem searchDocuments_store_invariants_witness :
    searchGermanLawDocuments wEnvC2 "§ 1 BDSG" ((some (1 : Int)).getD 20)
        = some (mkSearchResponse wEnvC2.table)
    ∧ (((mkSearchResponse wEnvC2.table).documents.map (·.id)).Nodup
        ∧ (mkSearchResponse wEnvC2.table).documents.length
            ≤ clampLimitStore ((some (1 : Int)).getD 20)
        ∧ (mkSearchResponse wEnvC2.table).total
            = (mkSearchResponse wEnvC2.table).documents.length) :=
  ⟨by decide, searchDocuments_store_invariants wEnvC2 "§ 1 BDSG" (some 1)
      (mkSearchResponse wEnvC2.table) (by decide)⟩

/-! ### Character-class and ordering lemmas -/

theorem char_toNat_ofNat_valid (n : Nat) (h : n.isValidChar) :
    (Char.ofNat n).toNat = n := by
  rw [Char.ofNat, dif_pos h]
  rfl

theorem isWsChar_cases (c : Char) (h : isWsChar c = true) :
    c = ' ' ∨ c = '\t' ∨ c = '\n' ∨ c = '\r' ∨ c = '\x0b' ∨ c = '\x0c' := by
  unfold isWsChar at h
  simp only [Bool.or_eq_true, decide_eq_true_eq] at h
  tauto

theorem isCodeChar_not_ws (c : Char) (h : isCodeChar c = true) : isWsChar c = false := by
  cases hw : isWsChar c with
  | false => rfl
  | true =>
    exfalso
    rcases isWsChar_cases c hw with h1 | h1 | h1 | h1 | h1 | h1 <;>
      (rw [h1] at h; exact absurd h (by decide))

theorem jsUpperChar_code_not_ws (c : Char) (h : isCodeChar c = true) :
    isWsChar (jsUpperChar c) = false := by
  unfold jsUpperChar
  by_cases h1 : c = 'ä'
  · rw [h1] at h
    exact absurd h (by decide)
  by_cases h2 : c = 'ö'
  · rw [h2] at h
    exact absurd h (by decide)
  by_cases h3 : c = 'ü'
  · rw [h3] at h
    exact absurd h (by decide)
  rw [if_neg h1, if_neg h2, if_neg h3]
  unfold Char.toUpper
  by_cases hr : c.toNat ≥ 97 ∧ c.toNat ≤ 122
  · rw [if_pos hr]
    have hv : (c.toNat - 32).isValidChar := Or.inl (by omega)
    have ht : (Char.ofNat (c.toNat - 32)).toNat = c.toNat - 32 :=
      char_toNat_ofNat_valid _ hv
    cases hw : isWsChar (Char.ofNat (c.toNat - 32)) with
    | false => rfl
    | true =>
      exfalso
      rcases isWsChar_cases _ hw with h1 | h1 | h1 | h1 | h1 | h1 <;>
        (rw [h1] at ht; revert ht; simp; omega)
  · rw [if_neg hr]
    exact isCodeChar_not_ws c h

theorem charListLt_asymm (a : List Char) :
    ∀ b : List Char, charListLt a b = true → charListLt b a = false := by
  induction a with
  | nil =>
    intro b
    cases b <;> simp [charListLt]
  | cons x xs ih =>
    intro b
    cases b with
    | nil => simp [charListLt]
    | cons y ys =>
      intro h
      unfold charListLt at h ⊢
      simp only [Bool.or_eq_true, Bool.and_eq_true, decide_eq_true_eq] at h
      simp only [Bool.or_eq_false_iff, Bool.and_eq_false_iff]
      rcases h with h | ⟨hab, hr⟩
      · exact ⟨decide_eq_false (lt_asymm h),
          Or.inl (decide_eq_false (fun he => lt_irrefl x (he ▸ h)))⟩
      · subst hab
        exact ⟨decide_eq_false (lt_irrefl x), Or.inr (ih ys hr)⟩

theorem charListLt_trans (a : List Char) :
    ∀ b c : List Char, charListLt a b = true → charListLt b c = true →
      charListLt a c = true := by
  induction a with
  | nil =>
    intro b c h1 h2
    cases b with
    | nil => exact absurd h1 (by simp [charListLt])
    | cons y ys =>
      cases c with
      | nil => exact absurd h2 (by simp [charListLt])
      | cons z zs => simp [charListLt]
  | cons x xs ih =>
    intro b c h1 h2
    cases b with
    | nil => exact absurd h1 (by simp [charListLt])
    | cons y ys =>
      cases c with
      | nil => exact absurd h2 (by simp [charListLt])
      | cons z zs =>
        unfold charListLt at h1 h2 ⊢
        simp only [Bool.or_eq_true, Bool.and_eq_true, decide_eq_true_eq] at h1 h2 ⊢
        rcases h1 with h1 | ⟨hab, hr1⟩
        · rcases h2 with h2 | ⟨hbc, hr2⟩
          · exact Or.inl (lt_trans h1 h2)
          · exact Or.inl (hbc ▸ h1)
        · rcases h2 with h2 | ⟨hbc, hr2⟩
          · exact Or.inl (hab ▸ h2)
          · exact Or.inr ⟨hab.trans hbc, ih ys zs hr1 hr2⟩

theorem charListLt_connected (a : List Char) :
    ∀ b : List Char, a ≠ b → charListLt a b = true ∨ charListLt b a = true := by
  induction a with
  | nil =>
    intro b h
    cases b with
    | nil => exact absurd rfl h
    | cons y ys => exact Or.inl (by simp [charListLt])
  | cons x xs ih =>
    intro b h
    cases b with
    | nil => exact Or.inr (by simp [charListLt])
    | cons y ys =>
      unfold charListLt
      simp only [Bool.or_eq_true, Bool.and_eq_true, decide_eq_true_eq]
      by_cases hab : x = y
      · subst hab
        have hxy : xs ≠ ys := fun he => h (he ▸ rfl)
        rcases ih ys hxy with hx | hx
        · exact Or.inl (Or.inr ⟨rfl, hx⟩)
        · exact Or.inr (Or.inr ⟨rfl, hx⟩)
      · rcases lt_trichotomy x y with hlt | he | hlt
        · exact Or.inl (Or.inl hlt)
        · exact absurd he hab
        · exact Or.inr (Or.inl hlt)

theorem strLe_total (a b : String) : strLe a b = true ∨ strLe b a = true := by
  unfold strLe
  cases h : charListLt b.toList a.toList with
  | false =>
    left
    rfl
  | true =>
    right
    rw [charListLt_asymm _ _ h]
    rfl

theorem strLe_trans (a b c : String) (h1 : strLe a b = true) (h2 : strLe b c = true) :
    strLe a c = true := by
  unfold strLe at h1 h2 ⊢
  rw [Bool.not_eq_true'] at h1 h2 ⊢
  cases hca : charListLt c.toList a.toList with
  | false => rfl
  | true =>
    exfalso
    by_cases he : c.toList = b.toList
    · rw [he] at hca
      rw [hca] at h1
      exact Bool.false_ne_true h1.symm
    · rcases charListLt_connected _ _ he with hx | hx
      · rw [hx] at h2
        exact Bool.false_ne_true h2.symm
      · have := charListLt_trans _ _ _ hx hca
        rw [this] at h1
        exact Bool.false_ne_true h1.symm

theorem exactRowLe_total (pref : String) (a b : StatuteRow) :
    exactRowLe pref a b = true ∨ exactRowLe pref b a = true := by
  unfold exactRowLe
  rcases Nat.lt_trichotomy (exactKey pref a) (exactKey pref b) with h | h | h
  · left
    simp [h]
  · rcases strLe_total a.id b.id with hs | hs
    · left
      simp [h, hs]
    · right
      simp [h, hs]
  · right
    simp [h]

theorem exactRowLe_trans (pref : String) (a b c : StatuteRow)
    (h1 : exactRowLe pref a b = true) (h2 : exactRowLe pref b c = true) :
    exactRowLe pref a c = true := by
  unfold exactRowLe at h1 h2 ⊢
  simp only [Bool.or_eq_true, Bool.and_eq_true, decide_eq_true_eq] at h1 h2 ⊢
  rcases h1 with h1 | ⟨he1, hs1⟩
  · rcases h2 with h2 | ⟨he2, hs2⟩
    · exact Or.inl (Nat.lt_trans h1 h2)
    · exact Or.inl (he2 ▸ h1)
  · rcases h2 with h2 | ⟨he2, hs2⟩
    · exact Or.inl (he1 ▸ h2)
    · exact Or.inr ⟨he1.trans he2, strLe_trans _ _ _ hs1 hs2⟩

/-! ### Insertion-sort lemmas -/

theorem length_insertLe {α : Type} (le : α → α → Bool) (a : α) :
    ∀ l : List α, (insertLe le a l).length = l.length + 1
  | [] => rfl
  | b :: bs => by
    unfold insertLe
    by_cases h : le a b
    · rw [if_pos h]
      rfl
    · rw [if_neg h]
      simp [length_insertLe le a bs]

theorem length_sortLe {α : Type} (le : α → α → Bool) :
    ∀ l : List α, (sortLe le l).length = l.length
  | [] => rfl
  | a :: xs => by
    unfold sortLe
    rw [length_insertLe, length_sortLe le xs]
    rfl

theorem mem_insertLe {α : Type} (le : α → α → Bool) (a x : α) :
    ∀ l : List α, x ∈ insertLe le a l ↔ x = a ∨ x ∈ l
  | [] => by simp [insertLe]
  | b :: bs => by
    unfold insertLe
    by_cases h : le a b
    · rw [if_pos h]
      simp only [List.mem_cons]
    · rw [if_neg h]
      simp only [List.mem_cons, mem_insertLe le a x bs]
      tauto

theorem mem_sortLe {α : Type} (le : α → α → Bool) (x : α) :
    ∀ l : List α, x ∈ sortLe le l ↔ x ∈ l
  | [] => by simp [sortLe]
  | a :: xs => by
    unfold sortLe
    rw [mem_insertLe]
    simp only [List.mem_cons, mem_sortLe le x xs]

theorem sortLe_head_min {α : Type} (le : α → α → Bool)
    (htot : ∀ a b, le a b = true ∨ le b a = true)
    (htrans : ∀ a b c, le a b = true → le b c = true → le a c = true) :
    ∀ (l : List α) (h : α) (t : List α), sortLe le l = h :: t →
      ∀ x ∈ l, le h x = true
  | [], h, t => by simp [sortLe]
  | a :: xs, h, t => by
    intro hsort x hx
    unfold sortLe at hsort
    cases hs : sortLe le xs with
    | nil =>
      rw [hs] at hsort
      unfold insertLe at hsort
      have hxs : xs = [] := by
        have := length_sortLe le xs
        rw [hs] at this
        exact List.length_eq_zero.mp this.symm
      subst hxs
      simp only [List.mem_singleton] at hx
      cases hsort
      subst hx
      rcases htot x x with hh | hh <;> exact hh
    | cons h' t' =>
      rw [hs] at hsort
      have hmin' := sortLe_head_min le htot htrans xs h' t' hs
      unfold insertLe at hsort
      by_cases hcmp : le a h'
      · rw [if_pos hcmp] at hsort
        cases hsort
        rcases List.mem_cons.mp hx with hx1 | hx2
        · subst hx1
          rcases htot x x with hh | hh <;> exact hh
        · exact htrans _ _ _ hcmp (hmin' x hx2)
      · rw [if_neg hcmp] at hsort
        have hh' : le h' a = true := by
          rcases htot a h' with hh | hh
          · exact absurd hh hcmp
          · exact hh
        cases hsort
        rcases List.mem_cons.mp hx with hx1 | hx2
        · exact hx1 ▸ hh'
        · exact hmin' x hx2

/-! ### Further character-class lemmas -/

theorem isDigit_not_ws (c : Char) (h : c.isDigit = true) : isWsChar c = false := by
  cases hw : isWsChar c with
  | false => rfl
  | true =>
    exfalso
    rcases isWsChar_cases c hw with h1 | h1 | h1 | h1 | h1 | h1 <;>
      (rw [h1] at h; exact absurd h (by decide))

theorem isAlpha_not_ws (c : Char) (h : c.isAlpha = true) : isWsChar c = false := by
  cases hw : isWsChar c with
  | false => rfl
  | true =>
    exfalso
    rcases isWsChar_cases c hw with h1 | h1 | h1 | h1 | h1 | h1 <;>
      (rw [h1] at h; exact absurd h (by decide))

theorem isAlpha_isCodeChar (c : Char) (h : c.isAlpha = true) : isCodeChar c = true := by
  unfold isCodeChar
  rw [h]
  rfl

/-! ### `dropWhile` / `trimWsL` lemmas -/

theorem getLast?_cons_of_ne_nil {α : Type} (a : α) (as : List α) (h : as ≠ []) :
    (a :: as).getLast? = as.getLast? := by
  cases as with
  | nil => exact absurd rfl h
  | cons e es => exact List.getLast?_cons_cons

theorem dropWhile_head_not {α : Type} (p : α → Bool) (l : List α) (c : α)
    (h : (l.dropWhile p).head? = some c) : p c = false := by
  induction l with
  | nil => cases h
  | cons a as ih =>
    rw [List.dropWhile_cons] at h
    by_cases hp : p a = true
    · rw [if_pos hp] at h
      exact ih h
    · rw [if_neg hp] at h
      cases h
      exact Bool.not_eq_true _ ▸ hp

theorem dropWhile_eq_self_of_head {α : Type} (p : α → Bool) (l : List α)
    (h : ∀ c, l.head? = some c → p c = false) : l.dropWhile p = l := by
  cases l with
  | nil => rfl
  | cons a as =>
    rw [List.dropWhile_cons, if_neg]
    rw [h a rfl]
    exact Bool.false_ne_true

theorem dropWhile_getLast_eq {α : Type} (p : α → Bool) (l : List α)
    (hne : l.dropWhile p ≠ []) : (l.dropWhile p).getLast? = l.getLast? := by
  induction l with
  | nil => exact absurd rfl hne
  | cons a as ih =>
    rw [List.dropWhile_cons] at hne ⊢
    by_cases hp : p a = true
    · rw [if_pos hp] at hne ⊢
      have has : as ≠ [] := by
        intro he
        rw [he] at hne
        exact hne rfl
      rw [ih hne, getLast?_cons_of_ne_nil a as has]
    · rw [if_neg hp]

theorem mem_dropWhile_of_not {α : Type} (p : α → Bool) (l : List α) (d : α)
    (hd : d ∈ l) (hp : p d = false) : d ∈ l.dropWhile p := by
  induction l with
  | nil => cases hd
  | cons a as ih =>
    rw [List.dropWhile_cons]
    by_cases ha : p a = true
    · rw [if_pos ha]
      rcases List.mem_cons.mp hd with h1 | h1
      · subst h1
        rw [hp] at ha
        cases ha
      · exact ih h1
    · rw [if_neg ha]
      exact hd

theorem trim_head_not (l : List Char) (c : Char)
    (h : (trimWsL l).head? = some c) : isWsChar c = false := by
  unfold trimWsL at h
  rw [List.head?_reverse] at h
  have hne : (((l.dropWhile (isWsChar ·)).reverse).dropWhile (isWsChar ·)) ≠ [] := by
    intro he
    rw [he] at h
    cases h
  rw [dropWhile_getLast_eq _ _ hne, List.getLast?_reverse] at h
  exact dropWhile_head_not _ _ _ h

theorem trim_last_not (l : List Char) (c : Char)
    (h : (trimWsL l).getLast? = some c) : isWsChar c = false := by
  unfold trimWsL at h
  rw [List.getLast?_reverse] at h
  exact dropWhile_head_not _ _ _ h

theorem trim_id (l : List Char)
    (hh : ∀ c, l.head? = some c → isWsChar c = false)
    (hl : ∀ c, l.getLast? = some c → isWsChar c = false) : trimWsL l = l := by
  unfold trimWsL
  rw [dropWhile_eq_self_of_head _ _ hh]
  rw [dropWhile_eq_self_of_head _ _ (fun c hc => hl c (List.head?_reverse l ▸ hc))]
  exact List.reverse_reverse l

theorem trim_ne_nil (l : List Char) (d : Char) (hd : d ∈ l)
    (hw : isWsChar d = false) : trimWsL l ≠ [] := by
  unfold trimWsL
  intro he
  have h1 : d ∈ l.dropWhile (isWsChar ·) := mem_dropWhile_of_not _ _ _ hd hw
  have h2 : d ∈ (l.dropWhile (isWsChar ·)).reverse := List.mem_reverse.mpr h1
  have h3 : d ∈ ((l.dropWhile (isWsChar ·)).reverse).dropWhile (isWsChar ·) :=
    mem_dropWhile_of_not _ _ _ h2 hw
  have h4 := List.mem_reverse.mpr h3
  rw [he] at h4
  cases h4

/-! ### `collapseAux` lemmas -/

theorem collapse_false_eq_nil (l : List Char) (h : collapseAux false l = []) : l = [] := by
  cases l with
  | nil => rfl
  | cons a as =>
    unfold collapseAux at h
    by_cases ha : isWsChar a = true
    · rw [if_pos ha] at h
      cases h
    · rw [if_neg ha] at h
      cases h

theorem collapse_true_nil_ws (l : List Char) (h : collapseAux true l = []) :
    ∀ d ∈ l, isWsChar d = true := by
  induction l with
  | nil => intro d hd; cases hd
  | cons a as ih =>
    intro d hd
    unfold collapseAux at h
    by_cases ha : isWsChar a = true
    · rw [if_pos ha, if_pos rfl] at h
      rcases List.mem_cons.mp hd with h1 | h1
      · subst h1; exact ha
      · exact ih h d h1
    · rw [if_neg ha] at h
      cases h

theorem collapse_mem_ws (b : Bool) (l : List Char) (c : Char)
    (hc : c ∈ collapseAux b l) (hw : isWsChar c = true) : c = ' ' := by
  induction l generalizing b with
  | nil => cases hc
  | cons a as ih =>
    unfold collapseAux at hc
    by_cases ha : isWsChar a = true
    · rw [if_pos ha] at hc
      cases b with
      | true =>
        rw [if_pos rfl] at hc
        exact ih true hc
      | false =>
        rw [if_neg Bool.false_ne_true] at hc
        rcases List.mem_cons.mp hc with h1 | h1
        · exact h1
        · exact ih true h1
    · rw [if_neg ha] at hc
      rcases List.mem_cons.mp hc with h1 | h1
      · subst h1
        rw [hw] at ha
        exact absurd rfl ha
      · exact ih false h1

theorem collapse_head_true_not (l : List Char) (c : Char)
    (h : (collapseAux true l).head? = some c) : isWsChar c = false := by
  induction l with
  | nil => cases h
  | cons a as ih =>
    unfold collapseAux at h
    by_cases ha : isWsChar a = true
    · rw [if_pos ha, if_pos rfl] at h
      exact ih h
    · rw [if_neg ha] at h
      cases h
      exact Bool.not_eq_true _ ▸ ha

theorem collapse_chain (b : Bool) (l : List Char) :
    List.Chain' (fun a b => isWsChar a = false ∨ isWsChar b = false) (collapseAux b l) := by
  induction l generalizing b with
  | nil => exact List.chain'_nil
  | cons a as ih =>
    unfold collapseAux
    by_cases ha : isWsChar a = true
    · rw [if_pos ha]
      cases b with
      | true =>
        rw [if_pos rfl]
        exact ih true
      | false =>
        rw [if_neg Bool.false_ne_true]
        refine List.chain'_cons'.mpr ⟨?_, ih true⟩
        intro y hy
        exact Or.inr (collapse_head_true_not as y hy)
    · rw [if_neg ha]
      refine List.chain'_cons'.mpr ⟨?_, ih false⟩
      intro y _
      exact Or.inl (Bool.not_eq_true _ ▸ ha)

theorem collapse_last_not (b : Bool) (l : List Char)
    (h : ∀ d, l.getLast? = some d → isWsChar d = false) :
    ∀ c, (collapseAux b l).getLast? = some c → isWsChar c = false := by
  induction l generalizing b with
  | nil => intro c hc; cases hc
  | cons a as ih =>
    intro c hc
    cases has : as with
    | nil =>
      subst has
      have ha : isWsChar a = false := h a rfl
      unfold collapseAux at hc
      rw [if_neg (by rw [ha]; exact Bool.false_ne_true)] at hc
      simp only [collapseAux, List.getLast?_singleton, Option.some.injEq] at hc
      subst hc
      exact ha
    | cons e es =>
      subst has
      have h' : ∀ d, (e :: es).getLast? = some d → isWsChar d = false := by
        intro d hd
        exact h d (by rw [getLast?_cons_of_ne_nil a _ (by simp)]; exact hd)
      unfold collapseAux at hc
      by_cases ha : isWsChar a = true
      · rw [if_pos ha] at hc
        cases b with
        | true =>
          rw [if_pos rfl] at hc
          exact ih true h' c hc
        | false =>
          rw [if_neg Bool.false_ne_true] at hc
          cases hX : collapseAux true (e :: es) with
          | nil =>
            rw [hX] at hc
            simp only [List.getLast?_singleton, Option.some.injEq] at hc
            subst hc
            exfalso
            have hall := collapse_true_nil_ws _ hX
            have hne : (e :: es) ≠ ([] : List Char) := by simp
            obtain ⟨d, hd⟩ : ∃ d, (e :: es).getLast? = some d := by
              cases hgl : (e :: es).getLast? with
              | none => exact absurd (List.getLast?_eq_none_iff.mp hgl) hne
              | some d => exact ⟨d, rfl⟩
            have h1 := hall d (List.mem_of_mem_getLast? hd)
            have h2 := h' d hd
            rw [h1] at h2
            cases h2
          | cons x xs =>
            rw [hX, List.getLast?_cons_cons, ← hX] at hc
            exact ih true h' c hc
      · rw [if_neg ha] at hc
        cases hX : collapseAux false (e :: es) with
        | nil =>
          exact absurd (collapse_false_eq_nil _ hX) (by simp)
        | cons x xs =>
          rw [hX, List.getLast?_cons_cons, ← hX] at hc
          exact ih false h' c hc

theorem collapseAux_true_eq (l : List Char)
    (hh : ∀ c, l.head? = some c → isWsChar c = false) :
    collapseAux true l = collapseAux false l := by
  cases l with
  | nil => rfl
  | cons a as =>
    have ha := hh a rfl
    unfold collapseAux
    rw [if_neg (by rw [ha]; exact Bool.false_ne_true),
        if_neg (by rw [ha]; exact Bool.false_ne_true)]

theorem collapse_id (l : List Char)
    (h1 : ∀ c ∈ l, isWsChar c = true → c = ' ')
    (h2 : List.Chain' (fun a b => isWsChar a = false ∨ isWsChar b = false) l) :
    collapseAux false l = l := by
  induction l with
  | nil => rfl
  | cons a as ih =>
    obtain ⟨hr, h2'⟩ := List.chain'_cons'.mp h2
    have ih' := ih (fun c hc => h1 c (List.mem_cons_of_mem _ hc)) h2'
    by_cases ha : isWsChar a = true
    · have hsp := h1 a (List.mem_cons_self a as) ha
      subst hsp
      have hhd : ∀ c, as.head? = some c → isWsChar c = false := by
        intro c hc
        rcases hr c (by rw [hc]; rfl) with hx | hx
        · rw [ha] at hx
          cases hx
        · exact hx
      unfold collapseAux
      rw [if_pos ha, if_neg Bool.false_ne_true]
      rw [collapseAux_true_eq as hhd, ih']
    · unfold collapseAux
      rw [if_neg ha, ih']

/-! ### Shape of `normalizeWhitespaceL` output -/

theorem normWs_head_not (l : List Char) (c : Char)
    (h : (normalizeWhitespaceL l).head? = some c) : isWsChar c = false := by
  unfold normalizeWhitespaceL collapseRunsL at h
  cases ht : trimWsL l with
  | nil =>
    rw [ht] at h
    cases h
  | cons d ds =>
    rw [ht] at h
    have hd : isWsChar d = false := trim_head_not l d (by rw [ht]; rfl)
    unfold collapseAux at h
    rw [if_neg (by rw [hd]; exact Bool.false_ne_true)] at h
    cases h
    exact hd

theorem normWs_spaceOnly (l : List Char) :
    ∀ c ∈ normalizeWhitespaceL l, isWsChar c = true → c = ' ' :=
  fun c hc hw => collapse_mem_ws false (trimWsL l) c hc hw

theorem normWs_chain (l : List Char) :
    List.Chain' (fun a b => isWsChar a = false ∨ isWsChar b = false)
      (normalizeWhitespaceL l) :=
  collapse_chain false (trimWsL l)

theorem normWs_last_not (l : List Char) (c : Char)
    (h : (normalizeWhitespaceL l).getLast? = some c) : isWsChar c = false :=
  collapse_last_not false (trimWsL l) (trim_last_not l) c h

theorem normWs_ne_nil (l : List Char) (d : Char) (hd : d ∈ l) (hw : isWsChar d = false) :
    normalizeWhitespaceL l ≠ [] := by
  intro he
  exact trim_ne_nil l d hd hw (collapse_false_eq_nil _ he)

theorem chain_all_not_ws (l : List Char) (h : ∀ c ∈ l, isWsChar c = false) :
    List.Chain' (fun a b => isWsChar a = false ∨ isWsChar b = false) l := by
  induction l with
  | nil => exact List.chain'_nil
  | cons a as ih =>
    refine List.chain'_cons'.mpr ⟨fun y _ => Or.inl (h a (List.mem_cons_self a as)), ?_⟩
    exact ih (fun c hc => h c (List.mem_cons_of_mem _ hc))

/-- `normalizeWhitespace` is the identity on `PRE ++ " " ++ MID ++ " " ++ CODE`
when `PRE` and `CODE` are nonempty and whitespace-free and `MID` is nonempty and
already normalized (space-only whitespace, no runs, no leading/trailing
whitespace). -/
theorem normWs_build (pre mid code : List Char)
    (hpre_ne : pre ≠ [])
    (hpre : ∀ c ∈ pre, isWsChar c = false)
    (hmid_ne : mid ≠ [])
    (hmid_h : ∀ c, mid.head? = some c → isWsChar c = false)
    (hmid_l : ∀ c, mid.getLast? = some c → isWsChar c = false)
    (hmid_sp : ∀ c ∈ mid, isWsChar c = true → c = ' ')
    (hmid_ch : List.Chain' (fun a b => isWsChar a = false ∨ isWsChar b = false) mid)
    (hcode_ne : code ≠ [])
    (hcode : ∀ c ∈ code, isWsChar c = false) :
    normalizeWhitespaceL (pre ++ (' ' :: (mid ++ (' ' :: code))))
      = pre ++ (' ' :: (mid ++ (' ' :: code))) := by
  have hheadL : ∀ c, (pre ++ (' ' :: (mid ++ (' ' :: code)))).head? = some c →
      isWsChar c = false := by
    intro c hc
    rw [List.head?_append_of_ne_nil _ hpre_ne] at hc
    exact hpre c (List.mem_of_mem_head? (Option.mem_def.mpr hc))
  have hlastL : ∀ c, (pre ++ (' ' :: (mid ++ (' ' :: code)))).getLast? = some c →
      isWsChar c = false := by
    intro c hc
    rw [List.getLast?_append_of_ne_nil _ (by simp)] at hc
    rw [getLast?_cons_of_ne_nil _ _ (by simp [hmid_ne])] at hc
    rw [List.getLast?_append_of_ne_nil _ (by simp)] at hc
    rw [getLast?_cons_of_ne_nil _ _ hcode_ne] at hc
    exact hcode c (List.mem_of_mem_getLast? hc)
  have hsp : ∀ c ∈ pre ++ (' ' :: (mid ++ (' ' :: code))), isWsChar c = true → c = ' ' := by
    intro c hc hw
    rcases List.mem_append.mp hc with h1 | h1
    · rw [hpre c h1] at hw
      cases hw
    rcases List.mem_cons.mp h1 with h2 | h2
    · exact h2
    rcases List.mem_append.mp h2 with h3 | h3
    · exact hmid_sp c h3 hw
    rcases List.mem_cons.mp h3 with h4 | h4
    · exact h4
    · rw [hcode c h4] at hw
      cases hw
  have hch : List.Chain' (fun a b => isWsChar a = false ∨ isWsChar b = false)
      (pre ++ (' ' :: (mid ++ (' ' :: code)))) := by
    refine List.chain'_append.mpr ⟨chain_all_not_ws pre hpre, ?_, ?_⟩
    · refine List.chain'_cons'.mpr ⟨?_, ?_⟩
      · intro y hy
        rw [List.head?_append_of_ne_nil _ hmid_ne] at hy
        exact Or.inr (hmid_h y (Option.mem_def.mp hy))
      · refine List.chain'_append.mpr ⟨hmid_ch, ?_, ?_⟩
        · refine List.chain'_cons'.mpr ⟨?_, chain_all_not_ws code hcode⟩
          intro y hy
          exact Or.inr (hcode y (List.mem_of_mem_head? hy))
        · intro x hx y _
          exact Or.inl (hmid_l x (Option.mem_def.mp hx))
    · intro x hx y _
      exact Or.inl (hpre x (List.mem_of_mem_getLast? (Option.mem_def.mp hx)))
  unfold normalizeWhitespaceL collapseRunsL
  rw [trim_id _ hheadL hlastL]
  exact collapse_id _ hsp hch

/-! ### Inversion of the pattern matchers -/

theorem matchParagraph_mem (s : List Char) (g : ParaRaw)
    (h : matchParagraph s = some g) : (g, ([] : List Char)) ∈ paraCands s := by
  unfold matchParagraph at h
  cases hh : ((paraCands s).filter (fun pr => pr.2.isEmpty)).head? with
  | none =>
    rw [hh] at h
    cases h
  | some pr =>
    rw [hh] at h
    have h' : pr.1 = g := by simpa using h
    have hpr : pr ∈ (paraCands s).filter (fun pr => pr.2.isEmpty) := by
      cases hfl : (paraCands s).filter (fun pr => pr.2.isEmpty) with
      | nil =>
        rw [hfl] at hh
        cases hh
      | cons x xs =>
        rw [hfl] at hh
        cases hh
        exact List.mem_cons_self _ _
    obtain ⟨hmem, hemp⟩ := List.mem_filter.mp hpr
    have h2 : pr.2 = [] := by
      cases hpr2 : pr.2 with
      | nil => rfl
      | cons a as =>
        rw [hpr2] at hemp
        cases hemp
    rw [← h', ← h2]
    simpa using hmem

theorem matchArticle_mem (s : List Char) (g : ArtRaw)
    (h : matchArticle s = some g) : (g, ([] : List Char)) ∈ artCands s := by
  unfold matchArticle at h
  cases hh : ((artCands s).filter (fun pr => pr.2.isEmpty)).head? with
  | none =>
    rw [hh] at h
    cases h
  | some pr =>
    rw [hh] at h
    have h' : pr.1 = g := by simpa using h
    have hpr : pr ∈ (artCands s).filter (fun pr => pr.2.isEmpty) := by
      cases hfl : (artCands s).filter (fun pr => pr.2.isEmpty) with
      | nil =>
        rw [hfl] at hh
        cases hh
      | cons x xs =>
        rw [hfl] at hh
        cases hh
        exact List.mem_cons_self _ _
    obtain ⟨hmem, hemp⟩ := List.mem_filter.mp hpr
    have h2 : pr.2 = [] := by
      cases hpr2 : pr.2 with
      | nil => rfl
      | cons a as =>
        rw [hpr2] at hemp
        cases hemp
    rw [← h', ← h2]
    simpa using hmem

theorem paraCands_inv (s : List Char) (g : ParaRaw) (rest : List Char)
    (h : (g, rest) ∈ paraCands s) :
    ∃ mk ∈ markerCands s, ∃ sc ∈ sectionCands (skipWsL mk.2),
    ∃ pa ∈ tailGroupCands absKws numCands sc.2,
    ∃ se ∈ tailGroupCands satzKws numCands pa.2,
    ∃ nu ∈ tailGroupCands nrKws numCands se.2,
    ∃ le ∈ tailGroupCands buchstKws letterCands nu.2,
    ∃ co ∈ codeCands (skipWsL le.2),
      g = { marker := mk.1, sec := sc.1, par := pa.1, sent := se.1
            num := nu.1, letr := le.1, code := co.1 } ∧ rest = co.2 := by
  unfold paraCands at h
  simp only [List.mem_flatMap, List.mem_map] at h
  obtain ⟨mk, hmk, sc, hsc, pa, hpa, se, hse, nu, hnu, le, hle, co, hco, heq⟩ := h
  obtain ⟨h1, h2⟩ := Prod.mk.inj heq
  exact ⟨mk, hmk, sc, hsc, pa, hpa, se, hse, nu, hnu, le, hle, co, hco, h1.symm, h2.symm⟩

theorem artCands_inv (s : List Char) (g : ArtRaw) (rest : List Char)
    (h : (g, rest) ∈ artCands s) :
    ∃ kr ∈ kwCands artKws s, ∃ ar ∈ numCands (skipWsL kr.2),
    ∃ pa ∈ tailGroupCands absKws numCands ar.2,
    ∃ se ∈ tailGroupCands satzKws numCands pa.2,
    ∃ nu ∈ tailGroupCands nrKws numCands se.2,
    ∃ le ∈ tailGroupCands buchstKws letterCands nu.2,
    ∃ co ∈ codeCands (skipWsL le.2),
      g = { art := ar.1, par := pa.1, sent := se.1
            num := nu.1, letr := le.1, code := co.1 } ∧ rest = co.2 := by
  unfold artCands at h
  simp only [List.mem_flatMap, List.mem_map] at h
  obtain ⟨kr, hkr, ar, har, pa, hpa, se, hse, nu, hnu, le, hle, co, hco, heq⟩ := h
  obtain ⟨h1, h2⟩ := Prod.mk.inj heq
  exact ⟨kr, hkr, ar, har, pa, hpa, se, hse, nu, hnu, le, hle, co, hco, h1.symm, h2.symm⟩

theorem markerCands_char (s : List Char) (mk : List Char × List Char)
    (h : mk ∈ markerCands s) :
    (mk.1 = ['§', '§'] ∧ s = '§' :: '§' :: mk.2)
    ∨ (mk.1 = ['§'] ∧ s = '§' :: mk.2) := by
  unfold markerCands at h
  split at h
  · simp only [List.mem_cons, List.not_mem_nil, or_false] at h
    rcases h with h | h
    · subst h
      exact Or.inl ⟨rfl, rfl⟩
    · subst h
      exact Or.inr ⟨rfl, rfl⟩
  · simp only [List.mem_singleton] at h
    subst h
    exact Or.inr ⟨rfl, rfl⟩
  · cases h

theorem sectionCands_sectionSign (r : List Char) : sectionCands ('§' :: r) = [] := rfl

theorem numCands_head_digit (s : List Char) (x : List Char × List Char)
    (h : x ∈ numCands s) : ∃ d ds, x.1 = d :: ds ∧ d.isDigit = true := by
  unfold numCands at h
  dsimp only at h
  split at h
  · cases h
  next hne =>
    cases hd : s.takeWhile (·.isDigit) with
    | nil =>
      rw [hd] at hne
      exact absurd rfl hne
    | cons d ds =>
      have hdig : d.isDigit = true := by
        have : d ∈ s.takeWhile (·.isDigit) := by
          rw [hd]
          exact List.mem_cons_self _ _
        exact List.mem_takeWhile_imp this
      rw [hd] at h
      split at h
      next c cs heq =>
        split at h
        · simp only [List.mem_cons, List.mem_singleton, List.not_mem_nil, or_false] at h
          rcases h with h | h
          · exact ⟨d, ds ++ [c], by subst h; rfl, hdig⟩
          · exact ⟨d, ds, by subst h; rfl, hdig⟩
        · simp only [List.mem_singleton] at h
          exact ⟨d, ds, by subst h; rfl, hdig⟩
      next heq =>
        simp only [List.mem_singleton] at h
        exact ⟨d, ds, by subst h; rfl, hdig⟩

theorem sectionCands_head_digit (s : List Char) (x : List Char × List Char)
    (h : x ∈ sectionCands s) : ∃ d ds, x.1 = d :: ds ∧ d.isDigit = true := by
  unfold sectionCands at h
  simp only [List.mem_flatMap, List.mem_map] at h
  obtain ⟨nr, hnr, ir, hir, heq⟩ := h
  obtain ⟨d, ds, hds, hdig⟩ := numCands_head_digit s nr hnr
  obtain ⟨h1, _⟩ := Prod.mk.inj heq
  exact ⟨d, ds ++ ir.1, by rw [← h1, hds]; rfl, hdig⟩

theorem codeCands_shape (s : List Char) (co : List Char × List Char)
    (h : co ∈ codeCands s) :
    ∃ c cs, co.1 = c :: cs ∧ c.isAlpha = true ∧ ∀ x ∈ co.1, isCodeChar x = true := by
  unfold codeCands at h
  split at h
  · cases h
  next c cs =>
    split at h
    next halpha =>
      dsimp only at h
      simp only [List.mem_map, List.mem_range] at h
      obtain ⟨i, hi, heq⟩ := h
      obtain ⟨h1, _⟩ := Prod.mk.inj heq
      refine ⟨c, cs.take (min 19 ((cs.takeWhile (isCodeChar ·)).length) - i), h1.symm,
        halpha, ?_⟩
      intro x hx
      rw [← h1] at hx
      rcases List.mem_cons.mp hx with h2 | h2
      · subst h2
        exact isAlpha_isCodeChar x halpha
      · have hpref : cs.takeWhile (isCodeChar ·) <+: cs := List.takeWhile_prefix _
        obtain ⟨t, ht⟩ := hpref
        have hk : min 19 ((cs.takeWhile (isCodeChar ·)).length) - i
            ≤ (cs.takeWhile (isCodeChar ·)).length :=
          le_trans (Nat.sub_le _ _) (min_le_right _ _)
        have htk : (cs.takeWhile (isCodeChar ·) ++ t).take
              (min 19 ((cs.takeWhile (isCodeChar ·)).length) - i)
            = (cs.takeWhile (isCodeChar ·)).take
                (min 19 ((cs.takeWhile (isCodeChar ·)).length) - i) :=
          List.take_append_of_le_length hk
        rw [ht] at htk
        rw [htk] at h2
        exact List.mem_takeWhile_imp (List.take_subset _ _ h2)
    · cases h

/-! ### Inversion of the capture normalizers and the parser entry point -/

theorem mkParagraphParsed_inv (g : ParaRaw) (p : GermanCitationParsed)
    (h : mkParagraphParsed g = some p) :
    g.sec.isEmpty = false ∧ g.marker.isEmpty = false ∧ g.code.isEmpty = false ∧
    p = { typ := "paragraph"
          normalized := buildParagraphCitation
            { marker := resolveSectionMarker (String.mk g.marker)
                (normalizeWhitespace (String.mk g.sec))
              sec := normalizeWhitespace (String.mk g.sec)
              par := optStr g.par, sent := optStr g.sent, num := optStr g.num
              letr := optStr g.letr, code := normalizeCode (String.mk g.code) }
          parsed :=
            { typ := "paragraph"
              marker := some (resolveSectionMarker (String.mk g.marker)
                (normalizeWhitespace (String.mk g.sec)))
              sec := some (normalizeWhitespace (String.mk g.sec)), article := none
              par := optStr g.par, sent := optStr g.sent, num := optStr g.num
              letr := (optStr g.letr).map jsLower
              code := normalizeCode (String.mk g.code) }
          lookupCitations := [resolveSectionMarker (String.mk g.marker)
              (normalizeWhitespace (String.mk g.sec))
            ++ " " ++ normalizeWhitespace (String.mk g.sec)
            ++ " " ++ normalizeCode (String.mk g.code)] } := by
  unfold mkParagraphParsed at h
  split at h
  · cases h
  next hguard =>
    simp only [Bool.or_eq_true, not_or] at hguard
    obtain ⟨⟨hs, hm⟩, hc⟩ := hguard
    cases h
    exact ⟨Bool.not_eq_true _ ▸ hs, Bool.not_eq_true _ ▸ hm, Bool.not_eq_true _ ▸ hc, rfl⟩

theorem mkArticleParsed_inv (g : ArtRaw) (p : GermanCitationParsed)
    (h : mkArticleParsed g = some p) :
    g.art.isEmpty = false ∧ g.code.isEmpty = false ∧
    p = { typ := "article"
          normalized := buildArticleCitation
            { art := normalizeWhitespace (String.mk g.art)
              par := optStr g.par, sent := optStr g.sent, num := optStr g.num
              letr := optStr g.letr, code := normalizeCode (String.mk g.code) }
          parsed :=
            { typ := "article", marker := none, sec := none
              article := some (normalizeWhitespace (String.mk g.art))
              par := optStr g.par, sent := optStr g.sent, num := optStr g.num
              letr := (optStr g.letr).map jsLower
              code := normalizeCode (String.mk g.code) }
          lookupCitations := ["Art " ++ normalizeWhitespace (String.mk g.art)
            ++ " " ++ normalizeCode (String.mk g.code)] } := by
  unfold mkArticleParsed at h
  split at h
  · cases h
  next hguard =>
    simp only [Bool.or_eq_true, not_or] at hguard
    obtain ⟨ha, hc⟩ := hguard
    cases h
    exact ⟨Bool.not_eq_true _ ▸ ha, Bool.not_eq_true _ ▸ hc, rfl⟩

theorem parseGermanCitation_cases (s : String) (p : GermanCitationParsed)
    (h : parseGermanCitation s = some p) :
    (∃ g, matchParagraph (normalizeWhitespaceL s.toList) = some g
        ∧ mkParagraphParsed g = some p)
    ∨ (matchParagraph (normalizeWhitespaceL s.toList) = none
        ∧ ∃ g, matchArticle (normalizeWhitespaceL s.toList) = some g
            ∧ mkArticleParsed g = some p) := by
  unfold parseGermanCitation at h
  dsimp only at h
  cases hmp : matchParagraph (normalizeWhitespaceL s.toList) with
  | some g =>
    rw [hmp] at h
    exact Or.inl ⟨g, rfl, h⟩
  | none =>
    rw [hmp] at h
    cases hma : matchArticle (normalizeWhitespaceL s.toList) with
    | some g =>
      rw [hma] at h
      exact Or.inr ⟨rfl, g, rfl, h⟩
    | none =>
      rw [hma] at h
      cases h

/-- In every full-pattern paragraph candidate the raw `marker` capture is the
doubled sign exactly when the input starts with the doubled sign: the
single-sign candidate on a `"§§"`-input leaves a `'§'` in front of the
`section` group, which must start with a digit. -/
theorem paraCands_marker_startsWith (s : List Char) (g : ParaRaw) (rest : List Char)
    (h : (g, rest) ∈ paraCands s) :
    (g.marker = ['§', '§'] ∧ startsWithL ['§', '§'] s = true)
    ∨ (g.marker = ['§'] ∧ startsWithL ['§', '§'] s = false) := by
  obtain ⟨mk, hmk, sc, hsc, pa, hpa, se, hse, nu, hnu, le, hle, co, hco, hg, hrest⟩ :=
    paraCands_inv s g rest h
  have hgm : g.marker = mk.1 := by rw [hg]
  rcases markerCands_char s mk hmk with ⟨h1, h2⟩ | ⟨h1, h2⟩
  · left
    refine ⟨hgm.trans h1, ?_⟩
    rw [h2]
    rfl
  · right
    refine ⟨hgm.trans h1, ?_⟩
    rw [h2]
    cases hm2 : mk.2 with
    | nil => rfl
    | cons c r2 =>
      by_cases hc : c = '§'
      · subst hc
        exfalso
        rw [hm2] at hsc
        rw [show skipWsL ('§' :: r2) = '§' :: r2 from rfl] at hsc
        rw [sectionCands_sectionSign] at hsc
        cases hsc
      · have hd : decide ('§' = c) = false := decide_eq_false (fun he => hc he.symm)
        simp [startsWithL, hd]

/-- C4 counterexample: `"§§ 823 BGB"` parses in paragraph form with the
normalized marker `"§§"` although its section spec `"823"` contains no
comma, hyphen or word-bounded `bis` — the doubled marker does not imply a
range or list. -/
theorem sectionMarker_doubled_without_separator :
    (parseGermanCitation "§§ 823 BGB").map
        (fun p => (p.typ, p.parsed.marker, p.parsed.sec)) =
      some ("paragraph", some "§§", some "823")
    ∧ sepTest "823".toList = false := by
  exact ⟨by decide, by decide⟩

/-- C4 (amended): for every input that parses in paragraph form, the
normalized marker is `"§"` or `"§§"`, and it is `"§§"` exactly when the
normalized section spec contains a separator (comma, hyphen or word-bounded
`bis`) **or** the whitespace-normalized input itself starts with the doubled
sign `"§§"`. -/
theorem sectionMarker_spec (s : String) (p : GermanCitationParsed)
    (h : parseGermanCitation s = some p) (ht : p.typ = "paragraph") :
    ∃ m sec, p.parsed.marker = some m ∧ p.parsed.sec = some sec
      ∧ (m = "§" ∨ m = "§§")
      ∧ (m = "§§" ↔ (sepTest sec.toList = true
          ∨ startsWithL ['§', '§'] (normalizeWhitespaceL s.toList) = true)) := by
  rcases parseGermanCitation_cases s p h with ⟨g, hmp, hmk⟩ | ⟨-, g, -, hma⟩
  · obtain ⟨-, -, -, hp⟩ := mkParagraphParsed_inv g p hmk
    subst hp
    refine ⟨resolveSectionMarker (String.mk g.marker)
        (normalizeWhitespace (String.mk g.sec)),
      normalizeWhitespace (String.mk g.sec), rfl, rfl, ?_, ?_⟩
    · unfold resolveSectionMarker
      split
      · exact Or.inr rfl
      · exact Or.inl rfl
    · have hmem := matchParagraph_mem _ _ hmp
      rcases paraCands_marker_startsWith _ _ _ hmem with ⟨h1, h2⟩ | ⟨h1, h2⟩
      · have hmk2 : String.mk g.marker = "§§" := by rw [h1]
        have hm : resolveSectionMarker (String.mk g.marker)
            (normalizeWhitespace (String.mk g.sec)) = "§§" := by
          unfold resolveSectionMarker
          split
          · rfl
          next hneg => exact absurd (by rw [hmk2]; simp) hneg
        exact ⟨fun _ => Or.inr h2, fun _ => hm⟩
      · have hm1 : String.mk g.marker = "§" := by rw [h1]
        cases hsep : sepTest (normalizeWhitespace (String.mk g.sec)).toList with
        | true =>
          have hm : resolveSectionMarker (String.mk g.marker)
              (normalizeWhitespace (String.mk g.sec)) = "§§" := by
            unfold resolveSectionMarker
            split
            · rfl
            next hneg => exact absurd (by rw [hsep]; simp) hneg
          exact ⟨fun _ => Or.inl rfl, fun _ => hm⟩
        | false =>
          have hm : resolveSectionMarker (String.mk g.marker)
              (normalizeWhitespace (String.mk g.sec)) = "§" := by
            unfold resolveSectionMarker
            split
            next hposc => exact absurd hposc (by rw [hm1, hsep]; decide)
            · rfl
          rw [hm]
          constructor
          · intro he
            exact absurd he (by decide)
          · intro hor
            rcases hor with h3 | h3
            · exact absurd h3 Bool.false_ne_true
            · rw [h2] at h3
              cases h3
  · obtain ⟨-, -, hp⟩ := mkArticleParsed_inv g p hma
    rw [hp] at ht
    simp at ht

/-- `normalizeWhitespaceL` is the identity on a word made of a nonempty
whitespace-free prefix, one space, an already-normalized middle part, one
space, and an uppercased code capture. -/
theorem normWs_short_id (pre rawmid rawcode : List Char)
    (hpre_ne : pre ≠ [])
    (hpre : ∀ c ∈ pre, isWsChar c = false)
    (hmid_ne : normalizeWhitespaceL rawmid ≠ [])
    (hcode_ne : rawcode.map jsUpperChar ≠ [])
    (hcc : ∀ x ∈ rawcode, isCodeChar x = true) :
    normalizeWhitespaceL (pre ++ (' ' :: (normalizeWhitespaceL rawmid
        ++ (' ' :: rawcode.map jsUpperChar))))
      = pre ++ (' ' :: (normalizeWhitespaceL rawmid
        ++ (' ' :: rawcode.map jsUpperChar))) := by
  apply normWs_build
  · exact hpre_ne
  · exact hpre
  · exact hmid_ne
  · exact normWs_head_not rawmid
  · exact normWs_last_not rawmid
  · exact normWs_spaceOnly rawmid
  · exact normWs_chain rawmid
  · exact hcode_ne
  · intro c hc
    obtain ⟨y, hy, rfl⟩ := List.mem_map.mp hc
    exact jsUpperChar_code_not_ws y (hcc y hy)

/-- C5 counterexample: the short style of `"§ 1, 2 BGB"` is the literal
`"§ 1, 2 BGB"`, which does not consist of the citation's (normalized,
doubled) marker `"§§"` followed by the primary number and the code. -/
theorem shortStyle_drops_doubled_marker :
    (parseGermanCitation "§ 1, 2 BGB").map
        (fun p => (p.parsed.marker, formatGermanCitationByStyle p "short")) =
      some (some "§§", "§ 1, 2 BGB")
    ∧ ("§ 1, 2 BGB" : String) ≠ "§§" ++ " " ++ "1, 2" ++ " " ++ "BGB" := by
  exact ⟨by decide, by decide⟩

/-- C5 (amended): for every parseable citation, the short style yields the
literal `"§ <section> <CODE>"` (single section sign, whatever marker was
parsed) for paragraph citations and the literal `"Art. <n> <CODE>"` for
article citations — the subdivision tail is dropped and the surrounding
whitespace collapse is the identity on the already-normalized pieces. -/
theorem shortStyle_spec (s : String) (p : GermanCitationParsed)
    (h : parseGermanCitation s = some p) :
    (p.typ = "paragraph" →
      formatGermanCitationByStyle p "short"
        = "§ " ++ p.parsed.sec.getD "" ++ " " ++ p.parsed.code)
    ∧ (p.typ = "article" →
      formatGermanCitationByStyle p "short"
        = "Art. " ++ p.parsed.article.getD "" ++ " " ++ p.parsed.code) := by
  rcases parseGermanCitation_cases s p h with ⟨g, hmp, hmk⟩ | ⟨-, g, hma, hmb⟩
  · obtain ⟨hsne, -, -, hp⟩ := mkParagraphParsed_inv g p hmk
    have hmem := matchParagraph_mem _ _ hmp
    obtain ⟨mk, hmk2, sc, hsc, pa, hpa, se, hse, nu, hnu, le, hle, co, hco, hg, hrest⟩ :=
      paraCands_inv _ _ _ hmem
    obtain ⟨d, ds, hds, hdig⟩ := sectionCands_head_digit _ _ hsc
    obtain ⟨c0, cs0, hc0, halpha, hall⟩ := codeCands_shape _ _ hco
    have hgsec : g.sec = d :: ds := by rw [hg]; exact hds
    have hgcode : g.code = c0 :: cs0 := by rw [hg]; exact hc0
    have hgall : ∀ x ∈ g.code, isCodeChar x = true := by
      intro x hx
      rw [hg] at hx
      exact hall x hx
    subst hp
    constructor
    · intro _
      show collapseWhitespace ("§ " ++ normalizeWhitespace (String.mk g.sec)
          ++ " " ++ normalizeCode (String.mk g.code))
        = "§ " ++ normalizeWhitespace (String.mk g.sec)
          ++ " " ++ normalizeCode (String.mk g.code)
      have hmid_ne : normalizeWhitespaceL g.sec ≠ [] := by
        apply normWs_ne_nil g.sec d
        · rw [hgsec]
          exact List.mem_cons_self _ _
        · exact isDigit_not_ws d hdig
      have hcode_ne : g.code.map jsUpperChar ≠ [] := by
        rw [hgcode]
        simp
      have hS : ("§ " ++ normalizeWhitespace (String.mk g.sec)
            ++ " " ++ normalizeCode (String.mk g.code)).toList
          = ['§'] ++ (' ' :: (normalizeWhitespaceL g.sec
            ++ (' ' :: g.code.map jsUpperChar))) := by
        show ((['§', ' '] ++ normalizeWhitespaceL g.sec) ++ [' '])
            ++ g.code.map jsUpperChar = _
        simp [List.append_assoc]
      calc collapseWhitespace ("§ " ++ normalizeWhitespace (String.mk g.sec)
              ++ " " ++ normalizeCode (String.mk g.code))
          = String.mk (normalizeWhitespaceL (("§ "
              ++ normalizeWhitespace (String.mk g.sec)
              ++ " " ++ normalizeCode (String.mk g.code)).toList)) := rfl
        _ = String.mk (normalizeWhitespaceL (['§'] ++ (' '
              :: (normalizeWhitespaceL g.sec ++ (' ' :: g.code.map jsUpperChar))))) := by
            rw [hS]
        _ = String.mk (['§'] ++ (' ' :: (normalizeWhitespaceL g.sec
              ++ (' ' :: g.code.map jsUpperChar)))) := by
            rw [normWs_short_id ['§'] g.sec g.code (by simp) (by decide)
              hmid_ne hcode_ne hgall]
        _ = "§ " ++ normalizeWhitespace (String.mk g.sec)
              ++ " " ++ normalizeCode (String.mk g.code) := by
            rw [← hS]
            rfl
    · intro ht
      simp at ht
  · obtain ⟨hane, -, hp⟩ := mkArticleParsed_inv g p hmb
    have hmem := matchArticle_mem _ _ hma
    obtain ⟨kr, hkr, ar, har, pa, hpa, se, hse, nu, hnu, le, hle, co, hco, hg, hrest⟩ :=
      artCands_inv _ _ _ hmem
    obtain ⟨d, ds, hds, hdig⟩ := numCands_head_digit _ _ har
    obtain ⟨c0, cs0, hc0, halpha, hall⟩ := codeCands_shape _ _ hco
    have hgart : g.art = d :: ds := by rw [hg]; exact hds
    have hgcode : g.code = c0 :: cs0 := by rw [hg]; exact hc0
    have hgall : ∀ x ∈ g.code, isCodeChar x = true := by
      intro x hx
      rw [hg] at hx
      exact hall x hx
    subst hp
    constructor
    · intro ht
      simp at ht
    · intro _
      show collapseWhitespace ("Art. " ++ normalizeWhitespace (String.mk g.art)
          ++ " " ++ normalizeCode (String.mk g.code))
        = "Art. " ++ normalizeWhitespace (String.mk g.art)
          ++ " " ++ normalizeCode (String.mk g.code)
      have hmid_ne : normalizeWhitespaceL g.art ≠ [] := by
        apply normWs_ne_nil g.art d
        · rw [hgart]
          exact List.mem_cons_self _ _
        · exact isDigit_not_ws d hdig
      have hcode_ne : g.code.map jsUpperChar ≠ [] := by
        rw [hgcode]
        simp
      have hS : ("Art. " ++ normalizeWhitespace (String.mk g.art)
            ++ " " ++ normalizeCode (String.mk g.code)).toList
          = ['A', 'r', 't', '.'] ++ (' ' :: (normalizeWhitespaceL g.art
            ++ (' ' :: g.code.map jsUpperChar))) := by
        show ((['A', 'r', 't', '.', ' '] ++ normalizeWhitespaceL g.art) ++ [' '])
            ++ g.code.map jsUpperChar = _
        simp [List.append_assoc]
      calc collapseWhitespace ("Art. " ++ normalizeWhitespace (String.mk g.art)
              ++ " " ++ normalizeCode (String.mk g.code))
          = String.mk (normalizeWhitespaceL (("Art. "
              ++ normalizeWhitespace (String.mk g.art)
              ++ " " ++ normalizeCode (String.mk g.code)).toList)) := rfl
        _ = String.mk (normalizeWhitespaceL (['A', 'r', 't', '.'] ++ (' '
              :: (normalizeWhitespaceL g.art ++ (' ' :: g.code.map jsUpperChar))))) := by
            rw [hS]
        _ = String.mk (['A', 'r', 't', '.'] ++ (' ' :: (normalizeWhitespaceL g.art
              ++ (' ' :: g.code.map jsUpperChar)))) := by
            rw [normWs_short_id ['A', 'r', 't', '.'] g.art g.code (by simp) (by decide)
              hmid_ne hcode_ne hgall]
        _ = "Art. " ++ normalizeWhitespace (String.mk g.art)
              ++ " " ++ normalizeCode (String.mk g.code) := by
            rw [← hS]
            rfl

/-- Witness for `shortStyle_spec` at the concrete input `"§ 1, 2 BGB"`. -/
theorem shortStyle_spec_witness :
    parseGermanCitation "§ 1, 2 BGB" = some wParse5
    ∧ ((wParse5.typ = "paragraph" →
        formatGermanCitationByStyle wParse5 "short"
          = "§ " ++ wParse5.parsed.sec.getD "" ++ " " ++ wParse5.parsed.code)
      ∧ (wParse5.typ = "article" →
        formatGermanCitationByStyle wParse5 "short"
          = "Art. " ++ wParse5.parsed.article.getD "" ++ " " ++ wParse5.parsed.code)) :=
  ⟨by decide, shortStyle_spec "§ 1, 2 BGB" wParse5 (by decide)⟩

/-- Witness for `sectionMarker_spec` at the concrete input `"§§ 823 BGB"`. -/
theorem sectionMarker_spec_witness :
    (parseGermanCitation "§§ 823 BGB" = some wParse4 ∧ wParse4.typ = "paragraph")
    ∧ ∃ m sec, wParse4.parsed.marker = some m ∧ wParse4.parsed.sec = some sec
      ∧ (m = "§" ∨ m = "§§")
      ∧ (m = "§§" ↔ (sepTest sec.toList = true
          ∨ startsWithL ['§', '§']
              (normalizeWhitespaceL ("§§ 823 BGB" : String).toList) = true)) :=
  ⟨⟨by decide, by decide⟩, sectionMarker_spec "§§ 823 BGB" wParse4 (by decide) (by decide)⟩

/-! ### Head preservation of `pushUniqueRows` and the exact-citation stage -/

theorem push_head_ne_nil {α : Type} (idOf : α → String) (rows : List α) :
    ∀ (target : List α) (seen : List String) (lim : Nat), target ≠ [] →
      (pushUniqueRows idOf target seen rows lim).head? = target.head? := by
  induction rows with
  | nil =>
    intro target seen lim hne
    rfl
  | cons r rs ih =>
    intro target seen lim hne
    unfold pushUniqueRows
    by_cases hc : seen.contains (idOf r) = true
    · rw [if_pos hc]
      exact ih target seen lim hne
    · rw [if_neg hc]
      dsimp only
      by_cases hl : lim ≤ (target ++ [r]).length
      · rw [if_pos hl]
        exact List.head?_append_of_ne_nil _ hne
      · rw [if_neg hl]
        rw [ih (target ++ [r]) (seen ++ [idOf r]) lim (by simp)]
        exact List.head?_append_of_ne_nil _ hne

theorem push_head_cons {α : Type} (idOf : α → String) (r : α) (rs : List α) (lim : Nat) :
    (pushUniqueRows idOf [] [] (r :: rs) lim).head? = some r := by
  unfold pushUniqueRows
  have hc : ¬(([] : List String).contains (idOf r) = true) := by simp
  rw [if_neg hc]
  dsimp only
  by_cases hl : lim ≤ (([] : List α) ++ [r]).length
  · rw [if_pos hl]
    rfl
  · rw [if_neg hl]
    rw [push_head_ne_nil idOf rs (([] : List α) ++ [r])
      (([] : List String) ++ [idOf r]) lim (by simp)]
    rfl

theorem parse_lookup_singleton (s : String) (p : GermanCitationParsed)
    (h : parseGermanCitation s = some p) : ∃ x, p.lookupCitations = [x] := by
  rcases parseGermanCitation_cases s p h with ⟨g, -, hmk⟩ | ⟨-, g, -, hma⟩
  · obtain ⟨-, -, -, hp⟩ := mkParagraphParsed_inv g p hmk
    exact ⟨_, by rw [hp]⟩
  · obtain ⟨-, -, hp⟩ := mkArticleParsed_inv g p hma
    exact ⟨_, by rw [hp]⟩

theorem findExact_eq (table : List StatuteRow) (query : String) (limit : Nat)
    (p : GermanCitationParsed) (hp : parseGermanCitation query = some p)
    (x : String) (hx : p.lookupCitations = [x]) :
    findExactCitationRows table query limit
      = (sortLe (exactRowLe (((dedupeStrings p.lookupCitations).map jsLower).head?.getD ""))
          (table.filter (fun r =>
            match r.citation with
            | some c => ((dedupeStrings p.lookupCitations).map jsLower).contains (sqlLower c)
            | none => false))).take limit := by
  unfold findExactCitationRows
  rw [hp]
  dsimp only
  rw [hx]
  have hne : ¬(([x] : List String).isEmpty = true) := by simp
  rw [if_neg hne]

/-- Branch walk of `searchGermanLawDocuments`: whatever tier produces the
response, the head of the returned documents is the head of the
exact-citation stage when that stage is nonempty (later tiers only append). -/
theorem searchGLD_head (env : GermanDbEnv) (query : String) (limit : Int)
    (resp : SearchResponse) (r0 : StatuteRow)
    (h : searchGermanLawDocuments env query limit = some resp)
    (hm1 : (pushUniqueRows (·.id) [] []
        (findExactCitationRows env.table query (clampLimitStore limit))
        (clampLimitStore limit)).head? = some r0) :
    resp.documents.head? = some (mapStatuteRowToLawDocument r0) := by
  have base : ∀ rows : List StatuteRow, rows.head? = some r0 →
      some (mkSearchResponse rows) = some resp →
      resp.documents.head? = some (mapStatuteRowToLawDocument r0) := by
    intro rows hhead hr
    rw [← Option.some.inj hr]
    show (rows.map mapStatuteRowToLawDocument).head? = _
    rw [List.head?_map, hhead]
    rfl
  unfold searchGermanLawDocuments at h
  by_cases htab : env.hasLawDocuments = false
  · rw [if_pos htab] at h
    exact absurd h (by simp)
  rw [if_neg htab] at h
  dsimp only at h
  set m1 : List StatuteRow := pushUniqueRows (fun r : StatuteRow => r.id) [] []
      (findExactCitationRows env.table query (clampLimitStore limit))
      (clampLimitStore limit) with hm1def
  have hm1ne : m1 ≠ [] := by
    intro he
    rw [he] at hm1
    cases hm1
  split at h
  next => exact base _ hm1 h
  next =>
  split at h
  next => exact base _ hm1 h
  next =>
  by_cases hfts : env.hasLawFts = true
  swap
  · rw [if_neg hfts] at h
    try dsimp only at h
    exact base _ ((push_head_ne_nil (fun r : StatuteRow => r.id) env.likeRows m1
      (m1.map (fun r : StatuteRow => r.id)) (clampLimitStore limit) hm1ne).trans hm1) h
  rw [if_pos hfts] at h
  cases hfp : env.ftsPrimaryRows with
  | some rows =>
    rw [hfp] at h
    try dsimp only at h
    set m2 : List StatuteRow := pushUniqueRows (fun r : StatuteRow => r.id) m1
      (m1.map (fun r : StatuteRow => r.id)) rows (clampLimitStore limit) with hm2def
    have hm2 : m2.head? = some r0 := by
      rw [hm2def]
      exact (push_head_ne_nil (fun r : StatuteRow => r.id) rows m1
        (m1.map (fun r : StatuteRow => r.id)) (clampLimitStore limit) hm1ne).trans hm1
    have hm2ne : m2 ≠ [] := by
      intro he
      rw [he] at hm2
      cases hm2
    split at h
    next => exact base _ hm2 h
    next =>
    by_cases hfb : env.ftsHasFallback = true
    · rw [if_pos hfb] at h
      cases hq : env.ftsFallbackRows with
      | some rows2 =>
        rw [hq] at h
        try dsimp only at h
        by_cases hrl : 0 < rows2.length
        · rw [if_pos hrl] at h
          set m3 : List StatuteRow := pushUniqueRows (fun r : StatuteRow => r.id) m2
            (m2.map (fun r : StatuteRow => r.id)) rows2 (clampLimitStore limit) with hm3def
          have hm3 : m3.head? = some r0 := by
            rw [hm3def]
            exact (push_head_ne_nil (fun r : StatuteRow => r.id) rows2 m2
              (m2.map (fun r : StatuteRow => r.id)) (clampLimitStore limit) hm2ne).trans hm2
          have hm3ne : m3 ≠ [] := by
            intro he
            rw [he] at hm3
            cases hm3
          split at h
          next => exact base _ hm3 h
          next => exact base _ ((push_head_ne_nil (fun r : StatuteRow => r.id)
            env.likeRows m3 (m3.map (fun r : StatuteRow => r.id))
            (clampLimitStore limit) hm3ne).trans hm3) h
        · rw [if_neg hrl] at h
          split at h
          next => exact base _ hm2 h
          next => exact base _ ((push_head_ne_nil (fun r : StatuteRow => r.id)
            env.likeRows m2 (m2.map (fun r : StatuteRow => r.id))
            (clampLimitStore limit) hm2ne).trans hm2) h
      | none =>
        rw [hq] at h
        try dsimp only at h
        split at h
        next => exact base _ hm2 h
        next => exact base _ ((push_head_ne_nil (fun r : StatuteRow => r.id)
          env.likeRows m2 (m2.map (fun r : StatuteRow => r.id))
          (clampLimitStore limit) hm2ne).trans hm2) h
    · rw [if_neg hfb] at h
      split at h
      next => exact base _ hm2 h
      next => exact base _ ((push_head_ne_nil (fun r : StatuteRow => r.id)
        env.likeRows m2 (m2.map (fun r : StatuteRow => r.id))
        (clampLimitStore limit) hm2ne).trans hm2) h
  | none =>
    rw [hfp] at h
    try dsimp only at h
    split at h
    next => exact base _ hm1 h
    next =>
    by_cases hfb : env.ftsHasFallback = true
    · rw [if_pos hfb] at h
      cases hq : env.ftsFallbackRows with
      | some rows2 =>
        rw [hq] at h
        try dsimp only at h
        by_cases hrl : 0 < rows2.length
        · rw [if_pos hrl] at h
          set m3 : List StatuteRow := pushUniqueRows (fun r : StatuteRow => r.id) m1
            (m1.map (fun r : StatuteRow => r.id)) rows2 (clampLimitStore limit) with hm3def
          have hm3 : m3.head? = some r0 := by
            rw [hm3def]
            exact (push_head_ne_nil (fun r : StatuteRow => r.id) rows2 m1
              (m1.map (fun r : StatuteRow => r.id)) (clampLimitStore limit) hm1ne).trans hm1
          have hm3ne : m3 ≠ [] := by
            intro he
            rw [he] at hm3
            cases hm3
          split at h
          next => exact base _ hm3 h
          next => exact base _ ((push_head_ne_nil (fun r : StatuteRow => r.id)
            env.likeRows m3 (m3.map (fun r : StatuteRow => r.id))
            (clampLimitStore limit) hm3ne).trans hm3) h
        · rw [if_neg hrl] at h
          split at h
          next => exact base _ hm1 h
          next => exact base _ ((push_head_ne_nil (fun r : StatuteRow => r.id)
            env.likeRows m1 (m1.map (fun r : StatuteRow => r.id))
            (clampLimitStore limit) hm1ne).trans hm1) h
      | none =>
        rw [hq] at h
        try dsimp only at h
        split at h
        next => exact base _ hm1 h
        next => exact base _ ((push_head_ne_nil (fun r : StatuteRow => r.id)
          env.likeRows m1 (m1.map (fun r : StatuteRow => r.id))
          (clampLimitStore limit) hm1ne).trans hm1) h
    · rw [if_neg hfb] at h
      split at h
      next => exact base _ hm1 h
      next => exact base _ ((push_head_ne_nil (fun r : StatuteRow => r.id)
        env.likeRows m1 (m1.map (fun r : StatuteRow => r.id))
        (clampLimitStore limit) hm1ne).trans hm1) h

/-- C1: if the query parses and the store holds a row whose SQL-lowercased
citation is among the query's lowercased lookup candidates, then the store
search puts such a row first, and that row is minimal under the
exact-citation order (preferred candidate first, then id ascending). -/
theorem searchDocuments_exact_first (env : GermanDbEnv) (query : String)
    (limitArg : Option Int) (p : GermanCitationParsed) (resp : SearchResponse)
    (hp : parseGermanCitation query = some p)
    (hrow : ∃ r ∈ env.table, (match r.citation with
        | some c => ((dedupeStrings p.lookupCitations).map jsLower).contains (sqlLower c)
        | none => false) = true)
    (h : searchGermanLawDocuments env query (limitArg.getD 20) = some resp) :
    ∃ r : StatuteRow,
      resp.documents.head? = some (mapStatuteRowToLawDocument r)
      ∧ r ∈ env.table
      ∧ (match r.citation with
          | some c => ((dedupeStrings p.lookupCitations).map jsLower).contains (sqlLower c)
          | none => false) = true
      ∧ ∀ r' ∈ env.table, (match r'.citation with
          | some c => ((dedupeStrings p.lookupCitations).map jsLower).contains (sqlLower c)
          | none => false) = true →
        exactRowLe (((dedupeStrings p.lookupCitations).map jsLower).head?.getD "")
          r r' = true := by
  obtain ⟨x, hx⟩ := parse_lookup_singleton query p hp
  have hfe := findExact_eq env.table query (clampLimitStore (limitArg.getD 20)) p hp x hx
  obtain ⟨rstar, hrmem, hrpred⟩ := hrow
  have hselmem : rstar ∈ env.table.filter (fun r =>
      match r.citation with
      | some c => ((dedupeStrings p.lookupCitations).map jsLower).contains (sqlLower c)
      | none => false) := List.mem_filter.mpr ⟨hrmem, hrpred⟩
  cases hs : sortLe
      (exactRowLe (((dedupeStrings p.lookupCitations).map jsLower).head?.getD ""))
      (env.table.filter (fun r =>
        match r.citation with
        | some c => ((dedupeStrings p.lookupCitations).map jsLower).contains (sqlLower c)
        | none => false)) with
  | nil =>
    exfalso
    have hlen := length_sortLe
      (exactRowLe (((dedupeStrings p.lookupCitations).map jsLower).head?.getD ""))
      (env.table.filter (fun r =>
        match r.citation with
        | some c => ((dedupeStrings p.lookupCitations).map jsLower).contains (sqlLower c)
        | none => false))
    rw [hs] at hlen
    have hsel0 := List.length_eq_zero.mp hlen.symm
    rw [hsel0] at hselmem
    cases hselmem
  | cons r0 t0 =>
    have hmin := sortLe_head_min
      (exactRowLe (((dedupeStrings p.lookupCitations).map jsLower).head?.getD ""))
      (exactRowLe_total _) (exactRowLe_trans _) _ r0 t0 hs
    have hr0sel : r0 ∈ env.table.filter (fun r =>
        match r.citation with
        | some c => ((dedupeStrings p.lookupCitations).map jsLower).contains (sqlLower c)
        | none => false) := by
      apply (mem_sortLe _ r0 _).mp
      rw [hs]
      exact List.mem_cons_self _ _
    obtain ⟨hr0mem, hr0pred⟩ := List.mem_filter.mp hr0sel
    have hclamp := clampLimitStore_pos (limitArg.getD 20)
    cases hcl : clampLimitStore (limitArg.getD 20) with
    | zero =>
      exfalso
      rw [hcl] at hclamp
      exact absurd hclamp (by decide)
    | succ n =>
      have hfx : findExactCitationRows env.table query (clampLimitStore (limitArg.getD 20))
          = r0 :: t0.take n := by
        rw [hfe, hs, hcl]
        exact List.take_succ_cons
      have hm1 : (pushUniqueRows (·.id) [] []
          (findExactCitationRows env.table query (clampLimitStore (limitArg.getD 20)))
          (clampLimitStore (limitArg.getD 20))).head? = some r0 := by
        rw [hfx]
        exact push_head_cons _ r0 (t0.take n) _
      refine ⟨r0, searchGLD_head env query (limitArg.getD 20) resp r0 h hm1,
        hr0mem, hr0pred, ?_⟩
      intro r' hr'mem hr'pred
      exact hmin r' (List.mem_filter.mpr ⟨hr'mem, hr'pred⟩)

/-- Witness for `searchDocuments_exact_first`: the concrete store `wEnvC2`
with query `"§ 1 BDSG"` and limit `1`. -/
theorem searchDocuments_exact_first_witness :
    (parseGermanCitation "§ 1 BDSG" = some wParse1
      ∧ searchGermanLawDocuments wEnvC2 "§ 1 BDSG" ((some (1 : Int)).getD 20)
          = some (mkSearchResponse wEnvC2.table))
    ∧ ∃ r : StatuteRow,
        (mkSearchResponse wEnvC2.table).documents.head?
            = some (mapStatuteRowToLawDocument r)
        ∧ r ∈ wEnvC2.table
        ∧ (match r.citation with
            | some c => ((dedupeStrings wParse1.lookupCitations).map jsLower).contains
                (sqlLower c)
            | none => false) = true
        ∧ ∀ r' ∈ wEnvC2.table, (match r'.citation with
            | some c => ((dedupeStrings wParse1.lookupCitations).map jsLower).contains
                (sqlLower c)
            | none => false) = true →
          exactRowLe (((dedupeStrings wParse1.lookupCitations).map jsLower).head?.getD "")
            r r' = true :=
  ⟨⟨by decide, by decide⟩,
    searchDocuments_exact_first wEnvC2 "§ 1 BDSG" (some 1) wParse1
      (mkSearchResponse wEnvC2.table) (by decide) (by decide) (by decide)⟩

end GermanLawMcp
